import Mathlib

/-!
Broadlink client: packet codec, cipher wrapper and device session

A shallow embedding of `util.go`, `cipher.go` and `device.go`.

Conventions of the embedding:

* a `[]byte` is a `List Nat`; a list is a byte sequence when every element is
  below 256 (`isBytes`);
* `uint16` / `uint32` values are `Nat`, every operation that can wrap is
  written with an explicit `% 65536` / `% 4294967296`;
* a Go run-time panic (index or slice out of range, wrong IV length) is the
  value `none`, or `Outcome.panic` for the session operations;
* `crypto/aes` is a parameter (`AES`): one block function per key and
  direction. `crypto/cipher`'s CBC mode is written out over that parameter;
* the UDP socket is a parameter (`Transport`): the result of each socket
  operation of one call.
-/

namespace Broadlink

/-! ## Byte sequences -/

/-- A list of naturals is a byte sequence when every element fits in 8 bits. -/
def isBytes (p : List Nat) : Prop := ∀ b ∈ p, b < 256

instance (p : List Nat) : Decidable (isBytes p) := by
  unfold isBytes; infer_instance

/-- The little-endian 16-bit value held by the two bytes at `off`, `off + 1`
(the reading of a 16-bit field that the wire layout prescribes). -/
def le16 (p : List Nat) (off : Nat) : Nat :=
  p.getD off 0 + 256 * p.getD (off + 1) 0

/-- The little-endian 32-bit value held by the four bytes starting at `off`. -/
def le32 (p : List Nat) (off : Nat) : Nat :=
  p.getD off 0 + 256 * p.getD (off + 1) 0 + 65536 * p.getD (off + 2) 0
    + 16777216 * p.getD (off + 3) 0

/-! ## util.go -/

/-- The function `checksum`: the accumulator starts at `0xbeaf`; every byte is added in
`uint16` arithmetic. -/
def checksum (data : List Nat) : Nat :=
  data.foldl (fun sum b => (sum + b) % 65536) 0xbeaf

/-- The function `packetChecksumOK`: packets shorter than `0x22` are rejected; otherwise the
stored value `uint16(packet[0x21])<<8 | uint16(packet[0x20])` is compared with
the checksum of the packet from which the two stored bytes are subtracted
(`uint16` subtraction). -/
def packetChecksumOK (packet : List Nat) : Bool :=
  if packet.length < 0x22 then
    false
  else
    let packetsum := ((packet.getD 0x21 0 <<< 8) % 65536) ||| packet.getD 0x20 0
    let sum := checksum packet
    let sum := (sum + 65536 - packet.getD 0x20 0) % 65536
    let sum := (sum + 65536 - packet.getD 0x21 0) % 65536
    sum == packetsum

/-! ## Go library operations used by the package -/

/-- The builtin `copy(dst, src)`: the first `min(len(dst), len(src))` elements of
`dst` are overwritten. -/
def copy (dst src : List Nat) : List Nat :=
  src.take dst.length ++ dst.drop src.length

/-- The call `binary.LittleEndian.PutUint16(b[off:], v)`: `b[off] = byte(v)`,
`b[off+1] = byte(v >> 8)`. Every use in the package is on a buffer that holds
both positions. -/
def PutUint16 (b : List Nat) (off v : Nat) : List Nat :=
  (b.set off (v % 256)).set (off + 1) ((v >>> 8) % 256)

/-- The call `binary.LittleEndian.PutUint32(b[off:], v)`. -/
def PutUint32 (b : List Nat) (off v : Nat) : List Nat :=
  (((b.set off (v % 256)).set (off + 1) ((v >>> 8) % 256)).set (off + 2)
    ((v >>> 16) % 256)).set (off + 3) ((v >>> 24) % 256)

/-- The call `binary.LittleEndian.Uint16(b[off:])`: `uint16(b[0]) | uint16(b[1])<<8` of
the slice `b[off:]`. `none` is the panic raised when `off > len(b)` (slice
bounds) or when fewer than two bytes remain (index out of range). -/
def Uint16 (b : List Nat) (off : Nat) : Option Nat :=
  if off ≤ b.length then
    match b.drop off with
    | b0 :: b1 :: _ => some (b0 ||| ((b1 <<< 8) % 65536))
    | _ => none
  else
    none

/-- Byte-wise exclusive or of two blocks. -/
def xorBytes (a b : List Nat) : List Nat :=
  List.zipWith (fun x y => x ^^^ y) a b

/-- The package `crypto/aes`, taken as a parameter: for a key `k`, `encrypt k` and
`decrypt k` are `Block.Encrypt` and `Block.Decrypt` of `aes.NewCipher(k)` on one
16-byte block. -/
structure AES where
  encrypt : List Nat → List Nat → List Nat
  decrypt : List Nat → List Nat → List Nat

/-- A pair of block functions is a permutation of the 16-byte blocks with its
inverse. -/
def IsBlockPerm (enc dec : List Nat → List Nat) : Prop :=
  ∀ b : List Nat, b.length = 16 → isBytes b →
    (enc b).length = 16 ∧ isBytes (enc b) ∧ dec (enc b) = b

/-- A `cipher.BlockMode` in CBC mode: the direction, the block function
(`Block.Encrypt` for an encrypter, `Block.Decrypt` for a decrypter) and the
current chaining value. -/
structure BlockMode where
  decrypter : Bool
  b : List Nat → List Nat
  iv : List Nat

/-- The constructor `cipher.NewCBCEncrypter(b, iv)`; `none` is the panic on an IV whose length
is not the block size. -/
def NewCBCEncrypter (b : List Nat → List Nat) (iv : List Nat) : Option BlockMode :=
  if iv.length = 16 then some ⟨false, b, iv⟩ else none

/-- The constructor `cipher.NewCBCDecrypter(b, iv)`; `none` is the panic on an IV whose length
is not the block size. -/
def NewCBCDecrypter (b : List Nat → List Nat) (iv : List Nat) : Option BlockMode :=
  if iv.length = 16 then some ⟨true, b, iv⟩ else none

/-- CBC encryption of `n` blocks of `src` from the chaining value `iv`: each
block is xored with the previous ciphertext block and encrypted. Returns the
output and the last ciphertext block. -/
def cbcEncryptBlocks (b : List Nat → List Nat) : Nat → List Nat → List Nat → List Nat × List Nat
  | 0, iv, _ => ([], iv)
  | n + 1, iv, src =>
    let c := b (xorBytes (src.take 16) iv)
    let r := cbcEncryptBlocks b n c (src.drop 16)
    (c ++ r.1, r.2)

/-- CBC decryption of `n` blocks of `src` from the chaining value `iv`: each
block is decrypted and xored with the previous ciphertext block. Returns the
output and the last ciphertext block. -/
def cbcDecryptBlocks (b : List Nat → List Nat) : Nat → List Nat → List Nat → List Nat × List Nat
  | 0, iv, _ => ([], iv)
  | n + 1, iv, src =>
    let c := src.take 16
    let r := cbcDecryptBlocks b n c (src.drop 16)
    (xorBytes (b c) iv ++ r.1, r.2)

/-- The method `BlockMode.CryptBlocks(dst, src)` for a `src` made of whole blocks, which
is how `blockCipher` calls it: returns the bytes written to `dst` and the mode
with its chaining value advanced. -/
def BlockMode.CryptBlocks (m : BlockMode) (src : List Nat) : List Nat × BlockMode :=
  let r := if m.decrypter then cbcDecryptBlocks m.b (src.length / 16) m.iv src
           else cbcEncryptBlocks m.b (src.length / 16) m.iv src
  (r.1, { m with iv := r.2 })

/-! ## cipher.go -/

/-- The default AES key. -/
def broadlink_aeskey : List Nat :=
  [0x09, 0x76, 0x28, 0x34, 0x3f, 0xe9, 0x9e, 0x23, 0x76, 0x5c, 0x15, 0x13, 0xac, 0xcf, 0x8b, 0x02]

/-- The default AES initialisation vector. -/
def broadlink_aesiv : List Nat :=
  [0x56, 0x2e, 0x17, 0x99, 0x6d, 0x09, 0x3d, 0x28, 0xdd, 0xb3, 0xba, 0x69, 0x5a, 0x2e, 0x6f, 0x58]

/-- A `net.UDPAddr`. -/
structure NetUDPAddr where
  IP : List Nat
  Port : Int
  Zone : String
deriving DecidableEq, Repr

/-- The `Device` structure. The field `Type` of the source is `DevType` here.
A `nil` slice is `none`. `aesBlock` holds the key its `cipher.Block` was made
from (`aes.NewCipher(key)`). -/
structure Device where
  DevType : Nat
  MACAddr : Option (List Nat)
  UDPAddr : NetUDPAddr
  LocalAddr : NetUDPAddr
  Timeout : Int
  ID : Nat
  counter : Nat
  aesKey : Option (List Nat)
  aesIV : Option (List Nat)
  aesBlock : Option (List Nat)
deriving DecidableEq, Repr

/-- The function `blockCipher`: runs the mode over the whole blocks of `data`, then over the
leftover copied into a zeroed block. The two `CryptBlocks` calls write
`result[:split]` and `result[split:]`, which together are all of `result`. -/
def blockCipher (m : BlockMode) (data : List Nat) : List Nat :=
  let sz := data.length
  if sz = 0 then
    []
  else
    let split := (sz / 16) * 16
    let r1 := m.CryptBlocks (data.take split)
    if split < sz then
      let tmp := copy (List.replicate 16 0) (data.drop split)
      let r2 := r1.2.CryptBlocks tmp
      r1.1 ++ r2.1
    else
      r1.1

/-- The method `cipherParam`: the key of the block cipher and the IV, each the device's
own when set and the default otherwise. -/
def Device.cipherParam (d : Device) : List Nat × List Nat :=
  let iv := match d.aesIV with
    | some iv => iv
    | none => broadlink_aesiv
  let blk := match d.aesBlock with
    | some k => k
    | none => broadlink_aeskey
  (blk, iv)

/-- The method `Device.Encrypt`. -/
def Device.Encrypt (A : AES) (d : Device) (data : List Nat) : Option (List Nat) :=
  match NewCBCEncrypter (A.encrypt d.cipherParam.1) d.cipherParam.2 with
  | none => none
  | some m => some (blockCipher m data)

/-- The method `Device.Decrypt`. -/
def Device.Decrypt (A : AES) (d : Device) (data : List Nat) : Option (List Nat) :=
  match NewCBCDecrypter (A.decrypt d.cipherParam.1) d.cipherParam.2 with
  | none => none
  | some m => some (blockCipher m data)

/-! ## device.go -/

/-- Packet header bytes of a regular communication packet. -/
def regularPacketHeader : List Nat := [0x5a, 0xa5, 0xaa, 0x55, 0x5a, 0xa5, 0xaa, 0x55]

/-- The method `buildCmdPacket`. `none` is a panic: `d.MACAddr[5-i]` out of range, or the
panic of `Encrypt`. -/
def Device.buildCmdPacket (A : AES) (d : Device) (cmd : Nat) (payload : List Nat) :
    Option (List Nat) :=
  let packet := List.replicate 0x38 0
  let packet := copy packet regularPacketHeader
  let packet := (packet.set 0x24 0x2a).set 0x25 0x27
  let packet := packet.set 0x26 cmd
  let packet := PutUint16 packet 0x28 d.counter
  let filled := (List.range 6).foldlM
    (fun (p : List Nat) i => (fun b => p.set (0x2a + i) b) <$> (d.MACAddr.getD [])[5 - i]?) packet
  match filled with
  | none => none
  | some packet =>
    let packet := PutUint32 packet 0x30 d.ID
    let packet := PutUint16 packet 0x34 (checksum payload)
    match d.Encrypt A payload with
    | none => none
    | some encrypted =>
      let packet := packet ++ encrypted
      let packet := PutUint16 packet 0x20 (checksum packet)
      some packet

/-- The error values of the package. `net` is an error returned by a socket
operation. -/
inductive Error where
  | invalidMACAddress
  | invalidChecksum
  | invalidPacketCounter
  | invalidDeviceMAC
  | net (msg : String)
  | localIDSize
  | blankResponse
  | notCaptured
  | failedStartCapture
  | failedReading
  | incompleteData
  | invalidCommandCode
  | invalidCount
  | failedSending (rescode : Nat)
deriving DecidableEq, Repr

/-- The socket of one call: the error (if any) of each operation, and for
`ReadFromUDP` the received bytes `resp[:sz]`. -/
structure Transport where
  listenUDP : Option String
  setDeadline : Option String
  writeTo : Option String
  readFromUDP : Except String (List Nat)
  close : Option String

/-- How a call ends: it returns `(result, err)`, or it panics. -/
inductive Outcome where
  | returned (result : List Nat) (err : Option Error)
  | panic
deriving DecidableEq, Repr

/-- What one call does: the device afterwards, the packet built, the packet
handed to `WriteTo`, and how the call ends. -/
structure CallResult where
  dev : Device
  built : Option (List Nat)
  written : Option (List Nat)
  out : Outcome
deriving DecidableEq, Repr

/-- The deferred function of `Call` and `Cmd`: the socket is closed and the
error of `Close` is returned when the call had none. -/
def deferredClose (t : Transport) : Outcome → Outcome
  | .returned result none => .returned result (t.close.map Error.net)
  | o => o

/-- The method `Device.Call`: send a command to the device and read the response. -/
def Device.Call (A : AES) (t : Transport) (d : Device) (cmd : Nat) (payload : List Nat) :
    CallResult :=
  if d.MACAddr = none ∨ (d.MACAddr.getD []).length ≠ 6 then
    ⟨d, none, none, .returned [] (some .invalidMACAddress)⟩
  else
    let d := { d with counter := (d.counter + 1) % 65536 }
    match d.buildCmdPacket A cmd payload with
    | none => ⟨d, none, none, .panic⟩
    | some packet =>
      match t.listenUDP with
      | some e => ⟨d, some packet, none, .returned [] (some (.net e))⟩
      | none =>
        match t.setDeadline with
        | some e => ⟨d, some packet, none, deferredClose t (.returned [] (some (.net e)))⟩
        | none =>
          match t.writeTo with
          | some e =>
            ⟨d, some packet, some packet, deferredClose t (.returned [] (some (.net e)))⟩
          | none =>
            match t.readFromUDP with
            | .error e =>
              ⟨d, some packet, some packet, deferredClose t (.returned [] (some (.net e)))⟩
            | .ok result =>
              if !packetChecksumOK result then
                ⟨d, some packet, some packet,
                  deferredClose t (.returned result (some .invalidChecksum))⟩
              else
                match Uint16 result 0x28 with
                | none => ⟨d, some packet, some packet, .panic⟩
                | some c =>
                  if d.counter ≠ c then
                    ⟨d, some packet, some packet,
                      deferredClose t (.returned result (some .invalidPacketCounter))⟩
                  else if (List.range 6).any
                      (fun i => packet.getD (0x2a + i) 0 != (d.MACAddr.getD []).getD (5 - i) 0) then
                    ⟨d, some packet, some packet,
                      deferredClose t (.returned result (some .invalidDeviceMAC))⟩
                  else
                    ⟨d, some packet, some packet, deferredClose t (.returned result none)⟩

/-- The method `Device.Cmd`: send a command to the device without waiting for a
response. -/
def Device.Cmd (A : AES) (t : Transport) (d : Device) (cmd : Nat) (payload : List Nat) :
    CallResult :=
  if d.MACAddr = none ∨ (d.MACAddr.getD []).length ≠ 6 then
    ⟨d, none, none, .returned [] (some .invalidMACAddress)⟩
  else
    let d := { d with counter := (d.counter + 1) % 65536 }
    match d.buildCmdPacket A cmd payload with
    | none => ⟨d, none, none, .panic⟩
    | some packet =>
      match t.listenUDP with
      | some e => ⟨d, some packet, none, .returned [] (some (.net e))⟩
      | none =>
        match t.setDeadline with
        | some e => ⟨d, some packet, none, deferredClose t (.returned [] (some (.net e)))⟩
        | none =>
          ⟨d, some packet, some packet, deferredClose t (.returned [] (t.writeTo.map Error.net))⟩

/-! ## Wire layout of a command packet -/

/-- The 0x38-byte header of a command packet as the layout table gives it:
magic preamble at `0x00`, whole-packet checksum bytes `s0 s1` at `0x20`, marker
`2a 27` at `0x24`, command byte at `0x26`, counter (little-endian) at `0x28`,
hardware address `m0 .. m5` in reversed order at `0x2a`, identity
(little-endian) at `0x30`, payload checksum (little-endian) at `0x34`, zero
elsewhere. -/
def wireHeader (s0 s1 cmd counter m0 m1 m2 m3 m4 m5 id ck : Nat) : List Nat :=
  [0x5a, 0xa5, 0xaa, 0x55, 0x5a, 0xa5, 0xaa, 0x55] ++ List.replicate 0x18 0 ++
  [s0, s1, 0, 0, 0x2a, 0x27, cmd, 0,
   counter % 256, counter / 256 % 256, m5, m4, m3, m2, m1, m0,
   id % 256, id / 256 % 256, id / 65536 % 256, id / 16777216 % 256,
   ck % 256, ck / 256 % 256, 0, 0]

/-! ## Concrete values used to instantiate the theorems -/

/-- A small keyed block permutation: every byte is shifted by the key sum. -/
def shiftAES : AES where
  encrypt := fun k b => b.map (fun x => (x + k.sum % 256) % 256)
  decrypt := fun k b => b.map (fun x => (x + 256 - k.sum % 256) % 256)

/-- A device as discovery leaves it: hardware address and type set, no
identity, default key. -/
def sampleDevice : Device where
  DevType := 0x2737
  MACAddr := some [0x34, 0xea, 0x34, 0x01, 0x02, 0x03]
  UDPAddr := ⟨[192, 168, 0, 7], 80, ""⟩
  LocalAddr := ⟨[192, 168, 0, 2], 0, ""⟩
  Timeout := 0
  ID := 0
  counter := 0x1234
  aesKey := none
  aesIV := none
  aesBlock := none

/-- A device without hardware address. -/
def blankDevice : Device where
  DevType := 0
  MACAddr := none
  UDPAddr := ⟨[], 0, ""⟩
  LocalAddr := ⟨[], 0, ""⟩
  Timeout := 0
  ID := 0
  counter := 7
  aesKey := none
  aesIV := none
  aesBlock := none

/-- A socket on which every operation succeeds and `resp` is received. -/
def okTransport (resp : List Nat) : Transport where
  listenUDP := none
  setDeadline := none
  writeTo := none
  readFromUDP := .ok resp
  close := none

/-- A socket that cannot be bound. -/
def failingTransport : Transport where
  listenUDP := some "bind: address already in use"
  setDeadline := none
  writeTo := none
  readFromUDP := .error "unreachable"
  close := none

/-- A device whose hardware address has five bytes. -/
def shortMACDevice : Device :=
  { sampleDevice with MACAddr := some [0x34, 0xea, 0x34, 0x01, 0x02] }

/-- A response to the sample device's next request (counter `0x1235`) with a
valid checksum, sent by a device whose hardware address is `ff:ff:ff:ff:ff:ff`. -/
def foreignResponse : List Nat :=
  wireHeader 0x2b 0xca 0xee 0x1235 0xff 0xff 0xff 0xff 0xff 0xff 0 0

/-- A response with a valid checksum that carries the previous counter value
`0x1234` and the sample device's hardware address. -/
def staleResponse : List Nat :=
  wireHeader 0x88 0xc5 0xee 0x1234 0x34 0xea 0x34 0x01 0x02 0x03 0 0

/-- A response of the sample device whose stored checksum is wrong. -/
def corruptResponse : List Nat :=
  wireHeader 0 0 0xee 0x1235 0x34 0xea 0x34 0x01 0x02 0x03 0 0

/-! ## More Go library operations -/

/-- The statement `copy(dst[lo:hi], src)` on a buffer `dst` that holds the
positions `lo .. hi`. -/
def copyAt (dst : List Nat) (lo hi : Nat) (src : List Nat) : List Nat :=
  dst.take lo ++ copy ((dst.take hi).drop lo) src ++ dst.drop hi

/-- The call `binary.LittleEndian.Uint32(b[off:])`; `none` is the panic raised
when fewer than four bytes remain. -/
def Uint32 (b : List Nat) (off : Nat) : Option Nat :=
  if off ≤ b.length then
    match b.drop off with
    | b0 :: b1 :: b2 :: b3 :: _ =>
      some (b0 ||| ((b1 <<< 8) % 4294967296) ||| ((b2 <<< 16) % 4294967296)
        ||| ((b3 <<< 24) % 4294967296))
    | _ => none
  else
    none

/-- The method `net.IP.To4`: a 4-byte address is itself, a 16-byte
IPv4-mapped address gives its last four bytes, anything else gives `nil`. -/
def To4 (ip : List Nat) : Option (List Nat) :=
  if ip.length = 4 then
    some ip
  else if ip.length = 16 ∧ ip.take 10 = List.replicate 10 0 ∧ ip.getD 10 0 = 0xff
      ∧ ip.getD 11 0 = 0xff then
    some (ip.drop 12)
  else
    none

/-- The Go type `int`, 64 bits wide: the value an arithmetic result wraps to. -/
def wrapInt (x : Int) : Int :=
  (x + 9223372036854775808) % 18446744073709551616 - 9223372036854775808

/-- The conversion `byte(x)` of an `int`. -/
def byteOfInt (x : Int) : Nat := (x % 256).toNat

/-! ## cipher.go: key handling -/

/-- The method `SetAESKey`: a key that is not 16 bytes long, or that is the
default key, unsets the device's key and block; any other key is stored and a
block is made from it. -/
def Device.SetAESKey (d : Device) (key : List Nat) : Device :=
  let key : Option (List Nat) :=
    if key.length ≠ 16 ∨ key = broadlink_aeskey then none else some key
  match key with
  | none => { d with aesKey := none, aesBlock := none }
  | some k => { d with aesKey := some k, aesBlock := some k }

/-- The method `GetAESKey`: a copy of the default key when the device has no
key, the device's key otherwise. -/
def Device.GetAESKey (d : Device) : List Nat :=
  match d.aesKey with
  | none => broadlink_aeskey
  | some k => k

/-! ## device.go: authorization -/

/-- The payload size computed by `Auth` from the length of `localName`. -/
def authPayloadSize (localName : List Nat) : Nat :=
  let namelen := localName.length
  let namelen := if namelen > 0 then namelen - 1 else namelen
  let namelen := (namelen / 16) * 16
  let sz := 0x30 + namelen
  if sz < 0x50 then 0x50 else if sz > 0x80 then 0x80 else sz

/-- The payload `Auth` passes to `Call`; `localName` is the byte sequence of
the Go string. -/
def authPayload (localID localName : List Nat) : List Nat :=
  let payload := List.replicate (authPayloadSize localName) 0
  let payload := copyAt payload 0x04 0x13 localID
  let payload := payload.set 0x2d 0x01
  let payload := copyAt payload 0x30 payload.length localName
  payload

/-- The method `getPayload`: the pair `(payload, err)`; `none` is the panic of
`Decrypt`. -/
def Device.getPayload (A : AES) (d : Device) (packet : List Nat) :
    Option (List Nat × Option Error) :=
  if packet.length ≤ 0x38 then
    some ([], some .blankResponse)
  else
    match d.Decrypt A (packet.drop 0x38) with
    | none => none
    | some payload => some (payload, none)

/-- How a call that returns only `err` ends. -/
inductive ErrOutcome where
  | returned (err : Option Error)
  | panic
deriving DecidableEq, Repr

/-- What `Auth` does: the device afterwards and how the call ends. -/
structure AuthResult where
  dev : Device
  out : ErrOutcome
deriving DecidableEq, Repr

/-- The method `Auth`. The slice `data[0x04:0x14]` panics when `data` has
fewer than `0x14` bytes. -/
def Device.Auth (A : AES) (t : Transport) (d : Device) (localID localName : List Nat) :
    AuthResult :=
  if localID.length ≠ 15 then
    ⟨d, .returned (some .localIDSize)⟩
  else
    let payload := authPayload localID localName
    let c := d.Call A t 0x65 payload
    match c.out with
    | .panic => ⟨c.dev, .panic⟩
    | .returned _ (some e) => ⟨c.dev, .returned (some e)⟩
    | .returned res none =>
      match c.dev.getPayload A res with
      | none => ⟨c.dev, .panic⟩
      | some (_, some e) => ⟨c.dev, .returned (some e)⟩
      | some (data, none) =>
        if data.length < 0x14 then
          ⟨c.dev, .panic⟩
        else
          let d := c.dev.SetAESKey ((data.take 0x14).drop 0x04)
          match Uint32 (data.take 0x04) 0 with
          | none => ⟨d, .panic⟩
          | some id => ⟨{ d with ID := id }, .returned none⟩

/-! ## remotecontrol.go -/

/-- The result code `binary.LittleEndian.Uint16(res[0x22:0x24])` of a response
returned by `Call` without error. Such a response has at least `0x2a` bytes,
so both positions are inside it. -/
def resultCode (res : List Nat) : Nat :=
  res.getD 0x22 0 ||| ((res.getD 0x23 0 <<< 8) % 65536)

/-- What `ReadCapturedRemoteControlCode` does: the device afterwards and the
returned `(rtype, code, err)`, or `none` for a panic. -/
structure ReadResult where
  dev : Device
  out : Option (Int × List Nat × Option Error)
deriving DecidableEq, Repr

/-- The second half of `ReadCapturedRemoteControlCode`, entered when the result
code is zero: the payload is extracted and decoded. -/
def Device.decodeCaptured (A : AES) (d : Device) (res : List Nat) :
    Option (Int × List Nat × Option Error) :=
  match d.getPayload A res with
  | none => none
  | some (_, some e) => some (0, [], some e)
  | some (data, none) =>
    if data.length < 8 then
      some (0, [], some .incompleteData)
    else
      match Uint16 (data.take 4) 0 with
      | none => none
      | some cmd =>
        if cmd ≠ 0x04 then
          some (0, [], some .invalidCommandCode)
        else
          match (data[4]? : Option Nat), Uint16 (data.take 8) 6 with
          | some rt, some sz =>
            let rtype : Int := Int.ofNat rt
            if data.length < 8 + sz then
              some (rtype, [], some .incompleteData)
            else
              some (rtype, (data.take (8 + sz)).drop 8, none)
          | _, _ => none

/-- The method `ReadCapturedRemoteControlCode`. -/
def Device.ReadCapturedRemoteControlCode (A : AES) (t : Transport) (d : Device) : ReadResult :=
  let packet := (List.replicate 0x10 0).set 0 0x04
  let c := d.Call A t 0x6a packet
  match c.out with
  | .panic => ⟨c.dev, none⟩
  | .returned _ (some e) => ⟨c.dev, some (0, [], some e)⟩
  | .returned res none =>
    let rescode := resultCode res
    if rescode ≠ 0 then
      if rescode = 0xfff6 then
        ⟨c.dev, some (0, [], some .notCaptured)⟩
      else
        ⟨c.dev, some (0, [], some .failedReading)⟩
    else
      ⟨c.dev, c.dev.decodeCaptured A res⟩

/-- What `SendRemoteControlCode` does: the device afterwards, the payload
passed to `Call` and what that call did (both `none` when `Call` is not
reached), and how the call ends. -/
structure SendResult where
  dev : Device
  payload : Option (List Nat)
  call : Option CallResult
  out : ErrOutcome
deriving DecidableEq, Repr

/-- The method `SendRemoteControlCode`; `rtype` and `count` are Go `int`s. -/
def Device.SendRemoteControlCode (A : AES) (t : Transport) (d : Device) (rtype : Int)
    (code : List Nat) (count : Int) : SendResult :=
  let packet := List.replicate (0x08 + code.length) 0
  let packet := packet.set 0 0x02
  let packet := packet.set 4 (byteOfInt rtype)
  let count := wrapInt (count - 1)
  if count < 0 then
    ⟨d, none, none, .returned (some .invalidCount)⟩
  else
    let packet := packet.set 5 (byteOfInt count)
    let packet := PutUint16 packet 6 (code.length % 65536)
    let packet := copyAt packet 8 packet.length code
    let c := d.Call A t 0x6a packet
    match c.out with
    | .panic => ⟨c.dev, some packet, some c, .panic⟩
    | .returned _ (some e) => ⟨c.dev, some packet, some c, .returned (some e)⟩
    | .returned res none =>
      let rescode := resultCode res
      if rescode ≠ 0 then
        ⟨c.dev, some packet, some c, .returned (some (.failedSending rescode))⟩
      else
        ⟨c.dev, some packet, some c, .returned none⟩

/-! ## discover.go -/

/-- The zero value of `Device` (`var newdev Device`). -/
def zeroDevice : Device where
  DevType := 0
  MACAddr := none
  UDPAddr := ⟨[], 0, ""⟩
  LocalAddr := ⟨[], 0, ""⟩
  Timeout := 0
  ID := 0
  counter := 0
  aesKey := none
  aesIV := none
  aesBlock := none

/-- One pass of the response loop of `DiscoverDevicesFromAddr` for a datagram
`r = resp[:sz]` received from `raddr` without error: the device list
afterwards; `none` is an index-out-of-range panic. -/
def discoverReply (localaddr : NetUDPAddr) (devlist : List Device) (r : List Nat)
    (raddr : NetUDPAddr) : Option (List Device) :=
  if r.length = 0 then
    some devlist
  else if !packetChecksumOK r then
    some devlist
  else
    match r[0x26]? with
    | none => none
    | some cmd =>
      if cmd ≠ 0x07 then
        some devlist
      else
        match r[0x35]?, r[0x34]? with
        | some hi, some lo =>
          let newdev : Device :=
            { zeroDevice with DevType := ((hi <<< 8) % 65536) ||| lo, UDPAddr := raddr }
          match r[0x39]?, r[0x38]?, r[0x37]?, r[0x36]? with
          | some a, some b, some c, some d =>
            if (To4 newdev.UDPAddr.IP).getD [] ≠ [a, b, c, d] then
              some devlist
            else
              let mac := (List.range 6).foldlM
                (fun (m : List Nat) i => (fun x => m.set (5 - i) x) <$> r[0x3a + i]?)
                (List.replicate 6 0)
              match mac with
              | none => none
              | some m =>
                some (devlist ++ [{ newdev with MACAddr := some m, LocalAddr := localaddr }])
          | _, _, _, _ => none
        | _, _ => none

/-! ## More concrete values -/

/-- A 15-byte local identity. -/
def sampleLocalID : List Nat := (List.range 15).map (fun i => i + 1)

/-- A 33-byte local name. -/
def longName : List Nat := (List.range 33).map (fun i => i + 65)

/-- A 5-byte local name. -/
def shortName : List Nat := [0x68, 0x6f, 0x73, 0x74, 0x31]

/-- A discovery reply of `0x40` bytes: command `0x07`, type `0x2737`, embedded
address `10.0.0.1`, hardware address ending in `aa`, valid checksum. -/
def helloReply : List Nat :=
  let q := ((((((List.replicate 0x40 0).set 0x26 0x07).set 0x34 0x37).set 0x35 0x27).set
    0x36 1).set 0x39 10).set 0x3a 0xaa
  PutUint16 q 0x20 (checksum q)

/-- The source address of the discovery reply. -/
def helloSource : NetUDPAddr := ⟨[10, 0, 0, 1], 80, ""⟩

/-- The local address of the discovery probe. -/
def probeAddr : NetUDPAddr := ⟨[10, 0, 0, 2], 0, ""⟩

/-- The sample device with the counter of its next request; packets it builds
are well-formed responses to that request. -/
def repliedDevice : Device := { sampleDevice with counter := 0x1235 }

/-- A decrypted authorization payload: identity `0x01000007`, a 16-byte key. -/
def authData : List Nat :=
  [7, 0, 0, 1] ++ (List.range 16).map (fun i => i + 100) ++ List.replicate 12 0

/-- A response to the sample device's authorization request carrying `authData`. -/
def authResponse : List Nat :=
  (repliedDevice.buildCmdPacket shiftAES 0xe9 authData).getD []

/-- A decrypted capture payload: command `0x04`, remote type `0x26`, a code of
three bytes, zero padding. -/
def capturedData : List Nat :=
  [4, 0, 0, 0, 0x26, 0, 3, 0, 1, 2, 3] ++ List.replicate 5 0

/-- A response to the sample device's read request carrying `capturedData`,
result code zero. -/
def capturedResponse : List Nat :=
  (repliedDevice.buildCmdPacket shiftAES 0xee capturedData).getD []

/-- A response to the sample device's read request with result code `0xfff6`. -/
def notCapturedResponse : List Nat :=
  let q := ((wireHeader 0 0 0xee 0x1235 0x34 0xea 0x34 0x01 0x02 0x03 0 0).set 0x22 0xf6).set
    0x23 0xff
  PutUint16 q 0x20 (checksum q)

/-- A response to the sample device's read request with result code `0x0001`. -/
def failedResponse : List Nat :=
  let q := (wireHeader 0 0 0xee 0x1235 0x34 0xea 0x34 0x01 0x02 0x03 0 0).set 0x22 0x01
  PutUint16 q 0x20 (checksum q)

/-- A datagram of `0x22` bytes with a valid checksum: zeros, then the stored
checksum `0xbeaf`. -/
def shortDatagram : List Nat := List.replicate 0x20 0 ++ [0xaf, 0xbe]

/-- A response to the sample device's authorization request whose encrypted
payload is one block: `0x48` bytes in all. -/
def shortAuthResponse : List Nat :=
  (repliedDevice.buildCmdPacket shiftAES 0xe9 (authData.take 16)).getD []

/-! ## Lemmas on the checksum -/

theorem checksum_foldl (data : List Nat) (s : Nat) :
    data.foldl (fun sum b => (sum + b) % 65536) s % 65536 = (s + data.sum) % 65536 := by
  induction data generalizing s with
  | nil => simp
  | cons b bs ih =>
    simp only [List.foldl_cons, List.sum_cons]
    rw [ih]
    omega

theorem checksum_lt (data : List Nat) : checksum data < 65536 := by
  unfold checksum
  rcases List.eq_nil_or_concat data with h | ⟨l, b, h⟩
  · subst h; simp
  · subst h
    rw [List.concat_eq_append, List.foldl_append]
    simp only [List.foldl_cons, List.foldl_nil]
    omega

theorem checksum_eq (data : List Nat) : checksum data = (0xbeaf + data.sum) % 65536 := by
  have h := checksum_foldl data 0xbeaf
  have h2 := checksum_lt data
  unfold checksum at *
  omega

/-- The value `uint16(hi)<<8 | uint16(lo)` is `lo + 256 * hi` on bytes. -/
theorem shl_or_eq (lo hi : Nat) (hlo : lo < 256) (hhi : hi < 256) :
    ((hi <<< 8) % 65536) ||| lo = lo + 256 * hi := by
  have h := Nat.mul_add_lt_is_or (i := 8) (b := lo) (by simpa using hlo) hi
  rw [Nat.shiftLeft_eq, Nat.mod_eq_of_lt (by omega)]
  simp only [Nat.reducePow] at h ⊢
  rw [Nat.mul_comm hi 256, ← h]
  omega

theorem isBytes_getD (p : List Nat) (hp : isBytes p) (i : Nat) : p.getD i 0 < 256 := by
  rw [List.getD_eq_getElem?_getD]
  rcases h : p[i]? with _ | x
  · simp
  · simp only [Option.getD_some]
    exact hp x (List.getElem?_mem h)

/-- The verdict of `packetChecksumOK` in terms of the little-endian field and the byte sum;
only the two stored bytes need to be bytes. -/
theorem checksumOK_nat_iff (p : List Nat) (h0 : p.getD 0x20 0 < 256)
    (h1 : p.getD 0x21 0 < 256) :
    packetChecksumOK p = true ↔
      0x22 ≤ p.length ∧
      (checksum p + 131072 - p.getD 0x20 0 - p.getD 0x21 0) % 65536 = le16 p 0x20 := by
  have hc := checksum_lt p
  unfold packetChecksumOK le16
  simp only [Nat.reduceAdd]
  by_cases hlen : p.length < 0x22
  · simp only [hlen, if_true]
    constructor
    · intro h; cases h
    · rintro ⟨h, _⟩; omega
  · simp only [hlen, if_false, beq_iff_eq]
    rw [shl_or_eq _ _ h0 h1]
    constructor
    · intro h; refine ⟨by omega, ?_⟩; omega
    · rintro ⟨_, h⟩; omega

theorem sum_set (p : List Nat) (i : Nat) (hi : i < p.length) (b : Nat) :
    (p.set i b).sum + p.getD i 0 = p.sum + b := by
  induction p generalizing i with
  | nil => simp at hi
  | cons x xs ih =>
    cases i with
    | zero => simp; omega
    | succ j =>
      have h := ih j (by simpa using hi)
      simp only [List.set_cons_succ, List.sum_cons, List.getD_cons_succ]
      omega

theorem getD_set (p : List Nat) (i j : Nat) (hi : i < p.length) (b : Nat) :
    (p.set i b).getD j 0 = if i = j then b else p.getD j 0 := by
  simp only [List.getD_eq_getElem?_getD, List.getElem?_set]
  split
  · simp [hi]
  · rfl

theorem isBytes_set (p : List Nat) (hp : isBytes p) (i b : Nat) (hb : b < 256) :
    isBytes (p.set i b) := by
  intro x hx
  rcases List.mem_or_eq_of_mem_set hx with h | h
  · exact hp x h
  · omega

/-! ## Theorems on `checksum` and `packetChecksumOK` -/

/-- C3: for every byte sequence (the empty one included) `checksum` is
`0xBEAF` plus the sum of all byte values, modulo 65536; the checksum of the
empty sequence is `0xBEAF`. -/
theorem checksum_is_seed_plus_sum (data : List Nat) :
    checksum data = (0xBEAF + data.sum) % 65536 ∧ checksum [] = 0xBEAF :=
  ⟨checksum_eq data, rfl⟩

/-- C2: `packetChecksumOK p` holds exactly when the packet has at least `0x22`
bytes and the little-endian 16-bit value stored at `0x20..0x21` equals
`checksum p - p[0x20] - p[0x21]` modulo 65536; every shorter packet is
rejected. -/
theorem packetChecksumOK_iff (p : List Nat) (hp : isBytes p) :
    (packetChecksumOK p = true ↔
      0x22 ≤ p.length ∧
      (le16 p 0x20 : Int) =
        ((checksum p : Int) - (p.getD 0x20 0 : Int) - (p.getD 0x21 0 : Int)) % 65536) ∧
    (p.length < 0x22 → packetChecksumOK p = false) := by
  have h0 := isBytes_getD p hp 0x20
  have h1 := isBytes_getD p hp 0x21
  have hc := checksum_lt p
  refine ⟨?_, ?_⟩
  · rw [checksumOK_nat_iff p h0 h1]
    constructor
    · rintro ⟨h, e⟩; refine ⟨h, ?_⟩; omega
    · rintro ⟨h, e⟩; refine ⟨h, ?_⟩; omega
  · intro h
    simp [packetChecksumOK, h]

/-- Witness of C2 on a 34-byte packet whose stored checksum is right. -/
theorem packetChecksumOK_iff_witness :
    (packetChecksumOK (List.replicate 0x20 0 ++ [0xaf, 0xbe]) = true ↔
      0x22 ≤ (List.replicate 0x20 0 ++ [0xaf, 0xbe]).length ∧
      (le16 (List.replicate 0x20 0 ++ [0xaf, 0xbe]) 0x20 : Int) =
        ((checksum (List.replicate 0x20 0 ++ [0xaf, 0xbe]) : Int)
          - ((List.replicate 0x20 0 ++ [0xaf, 0xbe]).getD 0x20 0 : Int)
          - ((List.replicate 0x20 0 ++ [0xaf, 0xbe]).getD 0x21 0 : Int)) % 65536) ∧
    ((List.replicate 0x20 0 ++ [0xaf, 0xbe]).length < 0x22 →
      packetChecksumOK (List.replicate 0x20 0 ++ [0xaf, 0xbe]) = false) :=
  packetChecksumOK_iff (List.replicate 0x20 0 ++ [0xaf, 0xbe]) (by decide)

/-- C6: in a packet that passes `packetChecksumOK`, replacing any one byte
(the two stored checksum bytes included) by a different byte value gives a
packet that fails `packetChecksumOK`. -/
theorem packetChecksumOK_set_fails (p : List Nat) (hp : isBytes p)
    (hok : packetChecksumOK p = true) (i : Nat) (hi : i < p.length)
    (b : Nat) (hb : b < 256) (hne : b ≠ p.getD i 0) :
    packetChecksumOK (p.set i b) = false := by
  have h0 := isBytes_getD p hp 0x20
  have h1 := isBytes_getD p hp 0x21
  have hi0 := isBytes_getD p hp i
  have hq := isBytes_set p hp i b hb
  have q0 := isBytes_getD _ hq 0x20
  have q1 := isBytes_getD _ hq 0x21
  rw [checksumOK_nat_iff p h0 h1] at hok
  obtain ⟨hlen, e⟩ := hok
  rw [Bool.eq_false_iff]
  intro hq
  rw [checksumOK_nat_iff _ q0 q1] at hq
  obtain ⟨_, e2⟩ := hq
  have hs := sum_set p i hi b
  have g0 := getD_set p i 0x20 hi b
  have g1 := getD_set p i 0x21 hi b
  rw [checksum_eq] at e e2
  unfold le16 at e e2
  simp only [Nat.reduceAdd] at e e2
  rw [g0, g1] at e2
  by_cases c0 : i = 0x20
  · subst c0
    simp only [if_true, show ¬ (0x20 = 0x21) by decide, if_false] at e2
    omega
  · by_cases c1 : i = 0x21
    · subst c1
      simp only [if_true, show ¬ (0x21 = 0x20) by decide, if_false] at e2
      omega
    · simp only [c0, c1, if_false] at e2
      omega

/-- Witness of C6: the first byte of a valid 34-byte packet is replaced. -/
theorem packetChecksumOK_set_fails_witness :
    packetChecksumOK ((List.replicate 0x20 0 ++ [0xaf, 0xbe]).set 0 1) = false :=
  packetChecksumOK_set_fails (List.replicate 0x20 0 ++ [0xaf, 0xbe]) (by decide) (by decide)
    0 (by decide) 1 (by decide) (by decide)

/-! ## Lemmas on `buildCmdPacket` -/

theorem buildCmdPacket_eq (A : AES) (d : Device) (cmd : Nat) (payload : List Nat)
    (m0 m1 m2 m3 m4 m5 : Nat) (hmac : d.MACAddr = some [m0, m1, m2, m3, m4, m5])
    (enc : List Nat) (henc : d.Encrypt A payload = some enc) :
    d.buildCmdPacket A cmd payload =
      some (PutUint16
        (wireHeader 0 0 cmd d.counter m0 m1 m2 m3 m4 m5 d.ID (checksum payload) ++ enc) 0x20
        (checksum
          (wireHeader 0 0 cmd d.counter m0 m1 m2 m3 m4 m5 d.ID (checksum payload) ++ enc))) := by
  unfold Device.buildCmdPacket
  rw [hmac, henc]
  simp only [PutUint16, PutUint32, Nat.shiftRight_eq_div_pow, wireHeader, copy,
    regularPacketHeader, Nat.reducePow, Nat.reduceAdd, List.replicate, List.length_cons,
    List.length_nil, List.drop, List.take, List.cons_append, List.nil_append,
    List.set_cons_succ, List.set_cons_zero, List.range, List.range.loop, List.foldlM,
    Option.getD_some, Nat.reduceSub, List.getElem?_cons_succ, List.getElem?_cons_zero,
    Option.map_eq_map, Option.map_some', Option.bind_eq_bind, Option.some_bind,
    Option.pure_def]

theorem length_eq_six (mac : List Nat) (h : mac.length = 6) :
    mac = [mac.getD 0 0, mac.getD 1 0, mac.getD 2 0, mac.getD 3 0, mac.getD 4 0, mac.getD 5 0] := by
  match mac, h with
  | [_, _, _, _, _, _], _ => rfl

theorem Encrypt_some (A : AES) (d : Device) (payload : List Nat)
    (hiv : d.cipherParam.2.length = 16) :
    ∃ enc, d.Encrypt A payload = some enc := by
  simp [Device.Encrypt, NewCBCEncrypter, hiv]

/-- Writing the checksum of a packet whose checksum field is zero into that
field gives a packet that passes `packetChecksumOK`. -/
theorem packetChecksumOK_put (q : List Nat) (hlen : 0x22 ≤ q.length)
    (z0 : q.getD 0x20 0 = 0) (z1 : q.getD 0x21 0 = 0) :
    packetChecksumOK (PutUint16 q 0x20 (checksum q)) = true := by
  have hc := checksum_lt q
  unfold PutUint16
  simp only [Nat.reduceAdd, Nat.shiftRight_eq_div_pow, Nat.reducePow]
  have l1 : 0x21 < (q.set 0x20 (checksum q % 256)).length := by
    rw [List.length_set]; omega
  have s1 := sum_set q 0x20 (by omega) (checksum q % 256)
  have s2 := sum_set (q.set 0x20 (checksum q % 256)) 0x21 l1 (checksum q / 256 % 256)
  have a0 := getD_set q 0x20 0x20 (by omega) (checksum q % 256)
  have a1 := getD_set q 0x20 0x21 (by omega) (checksum q % 256)
  have b0 := getD_set (q.set 0x20 (checksum q % 256)) 0x21 0x20 l1 (checksum q / 256 % 256)
  have b1 := getD_set (q.set 0x20 (checksum q % 256)) 0x21 0x21 l1 (checksum q / 256 % 256)
  simp only [if_true, show ¬ (0x20 = 0x21) by decide, show ¬ (0x21 = 0x20) by decide,
    if_false] at a0 a1 b0 b1
  rw [a0] at b0
  rw [a1, z1] at s2
  rw [z0] at s1
  rw [checksumOK_nat_iff _ (by rw [b0]; omega) (by rw [b1]; omega)]
  refine ⟨by simp only [List.length_set]; exact hlen, ?_⟩
  unfold le16
  simp only [Nat.reduceAdd]
  rw [b0, b1, checksum_eq]
  have e := checksum_eq q
  omega

/-! ## Theorems on `buildCmdPacket` -/

/-- C4: for every device with a 6-byte hardware address, every command byte
and every payload (the empty one included), `buildCmdPacket` returns a packet
and that packet passes `packetChecksumOK`. -/
theorem buildCmdPacket_checksum_ok (A : AES) (d : Device) (cmd : Nat) (payload : List Nat)
    (mac : List Nat) (hmac : d.MACAddr = some mac) (hlen : mac.length = 6)
    (hiv : d.cipherParam.2.length = 16) :
    ∃ pkt, d.buildCmdPacket A cmd payload = some pkt ∧ packetChecksumOK pkt = true := by
  obtain ⟨enc, henc⟩ := Encrypt_some A d payload hiv
  rw [length_eq_six mac hlen] at hmac
  rw [buildCmdPacket_eq A d cmd payload _ _ _ _ _ _ hmac enc henc]
  refine ⟨_, rfl, ?_⟩
  apply packetChecksumOK_put
  · simp [wireHeader, List.replicate]
  · rfl
  · rfl

/-- Witness of C4 on the sample device with a three-byte payload. -/
theorem buildCmdPacket_checksum_ok_witness :
    ∃ pkt, sampleDevice.buildCmdPacket shiftAES 0x6a [1, 2, 3] = some pkt ∧
      packetChecksumOK pkt = true :=
  buildCmdPacket_checksum_ok shiftAES sampleDevice 0x6a [1, 2, 3]
    [0x34, 0xea, 0x34, 0x01, 0x02, 0x03] rfl rfl rfl

/-- C5: for a device with a 6-byte hardware address, counter `c` and identity
`ID`, `buildCmdPacket` returns a packet of `0x38 + len(Encrypt(payload))` bytes:
magic preamble at `0x00..0x07`, `2a 27` at `0x24..0x25`, the command byte at
`0x26`, `c` little-endian at `0x28..0x29` (reading the field back gives `c`),
`MAC[5-i]` at `0x2a+i`, `ID` little-endian at `0x30..0x33`, the checksum of the
plaintext payload little-endian at `0x34..0x35`, `Encrypt(payload)` from `0x38`
on, and zero in every other header byte outside `0x20..0x21`. -/
theorem buildCmdPacket_layout (A : AES) (d : Device) (cmd : Nat) (payload : List Nat)
    (mac : List Nat) (hmac : d.MACAddr = some mac) (hlen : mac.length = 6)
    (hiv : d.cipherParam.2.length = 16)
    (hc : d.counter < 65536) (hid : d.ID < 4294967296) :
    ∃ enc pkt, d.Encrypt A payload = some enc ∧ d.buildCmdPacket A cmd payload = some pkt ∧
      pkt.length = 0x38 + enc.length ∧
      pkt = wireHeader (pkt.getD 0x20 0) (pkt.getD 0x21 0) cmd d.counter
              (mac.getD 0 0) (mac.getD 1 0) (mac.getD 2 0) (mac.getD 3 0) (mac.getD 4 0)
              (mac.getD 5 0) d.ID (checksum payload) ++ enc ∧
      pkt.take 8 = [0x5a, 0xa5, 0xaa, 0x55, 0x5a, 0xa5, 0xaa, 0x55] ∧
      le16 pkt 0x28 = d.counter ∧ Uint16 pkt 0x28 = some d.counter ∧
      (∀ i, i < 6 → pkt.getD (0x2a + i) 0 = mac.getD (5 - i) 0) ∧
      le32 pkt 0x30 = d.ID ∧
      le16 pkt 0x34 = checksum payload ∧
      pkt.drop 0x38 = enc := by
  obtain ⟨enc, henc⟩ := Encrypt_some A d payload hiv
  have hck := checksum_lt payload
  rw [length_eq_six mac hlen] at hmac
  rw [buildCmdPacket_eq A d cmd payload _ _ _ _ _ _ hmac enc henc]
  refine ⟨enc, _, henc, rfl, ?_, ?_, ?_, ?_, ?_, ?_, ?_, ?_, ?_⟩
  · simp only [PutUint16, List.length_set, List.length_append, wireHeader, List.length_cons,
      List.length_nil, List.length_replicate]
  · simp [PutUint16, wireHeader, List.replicate]
  · simp [PutUint16, wireHeader, List.replicate]
  · simp [PutUint16, wireHeader, List.replicate, le16]
    omega
  · simp only [Uint16, PutUint16, wireHeader, List.replicate, List.cons_append, List.nil_append, List.set_cons_succ,
      List.set_cons_zero, List.drop_succ_cons, List.drop_zero, List.length_cons,
      Nat.reduceAdd]
    rw [if_pos (by omega), Nat.lor_comm,
      shl_or_eq _ _ (Nat.mod_lt _ (by decide)) (Nat.mod_lt _ (by decide))]
    congr 1
    omega
  · intro i hi
    interval_cases i <;> simp [PutUint16, wireHeader, List.replicate]
  · simp [PutUint16, wireHeader, List.replicate, le32]
    omega
  · simp [PutUint16, wireHeader, List.replicate, le16]
    omega
  · simp [PutUint16, wireHeader, List.replicate]

/-- Witness of C5 on the sample device with a three-byte payload. -/
theorem buildCmdPacket_layout_witness :
    ∃ enc pkt, sampleDevice.Encrypt shiftAES [1, 2, 3] = some enc ∧
      sampleDevice.buildCmdPacket shiftAES 0x6a [1, 2, 3] = some pkt ∧
      pkt.length = 0x38 + enc.length ∧
      pkt = wireHeader (pkt.getD 0x20 0) (pkt.getD 0x21 0) 0x6a sampleDevice.counter
              ([0x34, 0xea, 0x34, 0x01, 0x02, 0x03].getD 0 0)
              ([0x34, 0xea, 0x34, 0x01, 0x02, 0x03].getD 1 0)
              ([0x34, 0xea, 0x34, 0x01, 0x02, 0x03].getD 2 0)
              ([0x34, 0xea, 0x34, 0x01, 0x02, 0x03].getD 3 0)
              ([0x34, 0xea, 0x34, 0x01, 0x02, 0x03].getD 4 0)
              ([0x34, 0xea, 0x34, 0x01, 0x02, 0x03].getD 5 0)
              sampleDevice.ID (checksum [1, 2, 3]) ++ enc ∧
      pkt.take 8 = [0x5a, 0xa5, 0xaa, 0x55, 0x5a, 0xa5, 0xaa, 0x55] ∧
      le16 pkt 0x28 = sampleDevice.counter ∧ Uint16 pkt 0x28 = some sampleDevice.counter ∧
      (∀ i, i < 6 → pkt.getD (0x2a + i) 0 = [0x34, 0xea, 0x34, 0x01, 0x02, 0x03].getD (5 - i) 0) ∧
      le32 pkt 0x30 = sampleDevice.ID ∧
      le16 pkt 0x34 = checksum [1, 2, 3] ∧
      pkt.drop 0x38 = enc :=
  buildCmdPacket_layout shiftAES sampleDevice 0x6a [1, 2, 3]
    [0x34, 0xea, 0x34, 0x01, 0x02, 0x03] rfl rfl rfl (by decide) (by decide)

/-! ## Lemmas on CBC mode and `blockCipher` -/

theorem xorBytes_length (a b : List Nat) : (xorBytes a b).length = min a.length b.length := by
  simp [xorBytes]

theorem isBytes_xorBytes (a b : List Nat) (ha : isBytes a) (hb : isBytes b) :
    isBytes (xorBytes a b) := by
  induction a generalizing b with
  | nil => intro x hx; simp [xorBytes] at hx
  | cons x xs ih =>
    cases b with
    | nil => intro x hx; simp [xorBytes] at hx
    | cons y ys =>
      intro z hz
      simp only [xorBytes, List.zipWith_cons_cons, List.mem_cons] at hz
      rcases hz with h | h
      · subst h
        have hx : x < 2 ^ 8 := ha x (by simp)
        have hy : y < 2 ^ 8 := hb y (by simp)
        exact Nat.xor_lt_two_pow hx hy
      · exact ih ys (fun w hw => ha w (by simp [hw])) (fun w hw => hb w (by simp [hw])) z h

theorem xorBytes_cancel (a b : List Nat) (h : a.length = b.length) :
    xorBytes (xorBytes a b) b = a := by
  induction a generalizing b with
  | nil => simp [xorBytes]
  | cons x xs ih =>
    cases b with
    | nil => simp at h
    | cons y ys =>
      have := ih ys (by simpa using h)
      simp only [xorBytes, List.zipWith_cons_cons] at this ⊢
      rw [this, Nat.xor_cancel_right]

theorem isBytes_append (a b : List Nat) : isBytes (a ++ b) ↔ isBytes a ∧ isBytes b := by
  simp only [isBytes, List.mem_append]
  constructor
  · intro h; exact ⟨fun x hx => h x (Or.inl hx), fun x hx => h x (Or.inr hx)⟩
  · rintro ⟨h1, h2⟩ x (hx | hx)
    · exact h1 x hx
    · exact h2 x hx

theorem isBytes_take (a : List Nat) (n : Nat) (h : isBytes a) : isBytes (a.take n) :=
  fun x hx => h x (List.mem_of_mem_take hx)

theorem isBytes_drop (a : List Nat) (n : Nat) (h : isBytes a) : isBytes (a.drop n) :=
  fun x hx => h x (List.mem_of_mem_drop hx)

theorem cbc_roundtrip (enc dec : List Nat → List Nat) (h : IsBlockPerm enc dec) :
    ∀ (n : Nat) (iv src : List Nat), iv.length = 16 → isBytes iv → isBytes src →
      src.length = 16 * n →
      (cbcEncryptBlocks enc n iv src).1.length = 16 * n ∧
      isBytes (cbcEncryptBlocks enc n iv src).1 ∧
      (cbcEncryptBlocks enc n iv src).2.length = 16 ∧
      isBytes (cbcEncryptBlocks enc n iv src).2 ∧
      ∀ (m : Nat) (tail : List Nat),
        cbcDecryptBlocks dec (n + m) iv ((cbcEncryptBlocks enc n iv src).1 ++ tail) =
          (src ++ (cbcDecryptBlocks dec m (cbcEncryptBlocks enc n iv src).2 tail).1,
            (cbcDecryptBlocks dec m (cbcEncryptBlocks enc n iv src).2 tail).2) := by
  intro n
  induction n with
  | zero =>
    intro iv src hiv hivb hsrc hlen
    have : src = [] := List.length_eq_zero.mp (by omega)
    subst this
    refine ⟨rfl, ?_, hiv, hivb, ?_⟩
    · intro x hx; simp [cbcEncryptBlocks] at hx
    · intro m tail
      simp [cbcEncryptBlocks]
  | succ n ih =>
    intro iv src hiv hivb hsrc hlen
    have hs : (src.take 16).length = 16 := by rw [List.length_take]; omega
    have hx : (xorBytes (src.take 16) iv).length = 16 := by
      rw [xorBytes_length, hs, hiv]; rfl
    have hxb : isBytes (xorBytes (src.take 16) iv) :=
      isBytes_xorBytes _ _ (isBytes_take _ _ hsrc) hivb
    obtain ⟨hc, hcb, hdec⟩ := h _ hx hxb
    have hd : (src.drop 16).length = 16 * n := by rw [List.length_drop]; omega
    obtain ⟨i1, i2, i3, i4, i5⟩ := ih (enc (xorBytes (src.take 16) iv)) (src.drop 16) hc hcb
      (isBytes_drop _ _ hsrc) hd
    simp only [cbcEncryptBlocks]
    refine ⟨?_, ?_, i3, i4, ?_⟩
    · rw [List.length_append, hc, i1]; omega
    · exact (isBytes_append _ _).2 ⟨hcb, i2⟩
    · intro m tail
      rw [show n + 1 + m = (n + m) + 1 by omega]
      simp only [cbcDecryptBlocks]
      rw [List.append_assoc, List.take_left' hc, List.drop_left' hc, i5 m tail, hdec,
        xorBytes_cancel _ _ (by rw [hs, hiv])]
      simp only [← List.append_assoc, List.take_append_drop]

theorem copy_tmp (l : List Nat) (hl : l.length ≤ 16) :
    copy (List.replicate 16 0) l = l ++ List.replicate (16 - l.length) 0 := by
  unfold copy
  rw [List.length_replicate, List.take_of_length_le hl, List.drop_replicate]

theorem isBytes_replicate_zero (n : Nat) : isBytes (List.replicate n 0) := by
  intro x hx
  rw [List.eq_of_mem_replicate hx]
  decide

theorem blockCipher_roundtrip (enc dec : List Nat → List Nat) (h : IsBlockPerm enc dec)
    (iv p : List Nat) (hiv : iv.length = 16) (hivb : isBytes iv) (hp : isBytes p) :
    blockCipher ⟨true, dec, iv⟩ (blockCipher ⟨false, enc, iv⟩ p) =
      p ++ List.replicate ((16 - p.length % 16) % 16) 0 := by
  by_cases h0 : p.length = 0
  · have : p = [] := List.length_eq_zero.mp h0
    subst this
    simp [blockCipher]
  · by_cases hs : p.length / 16 * 16 < p.length
    · -- a leftover block
      have ht : (p.take (p.length / 16 * 16)).length = 16 * (p.length / 16) := by
        rw [List.length_take]; omega
      have hd : (p.drop (p.length / 16 * 16)).length = p.length % 16 := by
        rw [List.length_drop]; omega
      obtain ⟨a1, a2, a3, a4, a5⟩ := cbc_roundtrip enc dec h (p.length / 16) iv
        (p.take (p.length / 16 * 16)) hiv hivb (isBytes_take _ _ hp) ht
      have htmp := copy_tmp (p.drop (p.length / 16 * 16)) (by omega)
      have htl : (copy (List.replicate 16 0) (p.drop (p.length / 16 * 16))).length = 16 * 1 := by
        rw [htmp, List.length_append, List.length_replicate]; omega
      have htb : isBytes (copy (List.replicate 16 0) (p.drop (p.length / 16 * 16))) := by
        rw [htmp]
        exact (isBytes_append _ _).2 ⟨isBytes_drop _ _ hp, isBytes_replicate_zero _⟩
      obtain ⟨b1, b2, b3, b4, b5⟩ := cbc_roundtrip enc dec h 1
        (cbcEncryptBlocks enc (p.length / 16) iv (p.take (p.length / 16 * 16))).2
        (copy (List.replicate 16 0) (p.drop (p.length / 16 * 16))) a3 a4 htb htl
      have e1 : blockCipher ⟨false, enc, iv⟩ p =
          (cbcEncryptBlocks enc (p.length / 16) iv (p.take (p.length / 16 * 16))).1 ++
          (cbcEncryptBlocks enc 1
            (cbcEncryptBlocks enc (p.length / 16) iv (p.take (p.length / 16 * 16))).2
            (copy (List.replicate 16 0) (p.drop (p.length / 16 * 16)))).1 := by
        simp only [blockCipher, BlockMode.CryptBlocks, h0, hs, if_true, if_false,
          Bool.false_eq_true]
        rw [ht, htl]
        simp
      rw [e1]
      have hl : ((cbcEncryptBlocks enc (p.length / 16) iv (p.take (p.length / 16 * 16))).1 ++
          (cbcEncryptBlocks enc 1
            (cbcEncryptBlocks enc (p.length / 16) iv (p.take (p.length / 16 * 16))).2
            (copy (List.replicate 16 0) (p.drop (p.length / 16 * 16)))).1).length
            = 16 * (p.length / 16 + 1) := by
        rw [List.length_append, a1, b1]; omega
      have b5' := b5 0 []
      rw [List.append_nil] at b5'
      simp only [blockCipher, BlockMode.CryptBlocks, hl, if_true]
      rw [if_neg (by omega),
        show 16 * (p.length / 16 + 1) / 16 * 16 = 16 * (p.length / 16 + 1) by omega,
        if_neg (by omega), ← hl, List.take_length, hl,
        show 16 * (p.length / 16 + 1) / 16 = p.length / 16 + 1 by omega, a5 1 _, b5']
      simp only [cbcDecryptBlocks, List.append_nil]
      rw [htmp, ← List.append_assoc, List.take_append_drop, hd,
        Nat.mod_eq_of_lt (show 16 - p.length % 16 < 16 by omega)]
    · -- whole blocks only
      have hfull : p.length / 16 * 16 = p.length := by
        have := Nat.div_mul_le_self p.length 16
        omega
      have ht : p.length = 16 * (p.length / 16) := by omega
      obtain ⟨a1, a2, a3, a4, a5⟩ := cbc_roundtrip enc dec h (p.length / 16) iv p hiv hivb hp ht
      have e1 : blockCipher ⟨false, enc, iv⟩ p =
          (cbcEncryptBlocks enc (p.length / 16) iv p).1 := by
        simp only [blockCipher, BlockMode.CryptBlocks, h0, hs, if_false, Bool.false_eq_true]
        rw [hfull, List.take_length]
      rw [e1]
      have a5' := a5 0 []
      rw [List.append_nil] at a5'
      simp only [blockCipher, BlockMode.CryptBlocks, a1, if_true]
      rw [if_neg (by omega),
        show 16 * (p.length / 16) / 16 * 16 = 16 * (p.length / 16) by omega,
        if_neg (by omega), ← a1, List.take_length, a1,
        show 16 * (p.length / 16) / 16 = p.length / 16 by omega]
      rw [show p.length / 16 = p.length / 16 + 0 by rfl] at a5'
      simp only [Nat.add_zero] at a5'
      rw [a5']
      simp only [cbcDecryptBlocks, List.append_nil]
      rw [show (16 - p.length % 16) % 16 = 0 by omega]
      simp

theorem shiftAES_perm (k : List Nat) :
    IsBlockPerm (shiftAES.encrypt k) (shiftAES.decrypt k) := by
  intro b hl hb
  refine ⟨by simp [shiftAES, hl], ?_, ?_⟩
  · intro x hx
    simp only [shiftAES, List.mem_map] at hx
    obtain ⟨y, _, rfl⟩ := hx
    omega
  · simp only [shiftAES, List.map_map]
    conv_rhs => rw [← List.map_id b]
    apply List.map_congr_left
    intro x hx
    have := hb x hx
    simp only [Function.comp_apply, id_eq]
    omega

/-! ## Theorems on `Encrypt` and `Decrypt` -/

/-- C1: for every device (default or own key and IV) and every byte sequence
`p`, encrypting succeeds and decrypting the result gives `r` whose length is
the smallest multiple of 16 that is at least `len(p)`, whose first `len(p)`
bytes are `p` and whose remaining bytes are all zero; for empty `p` it is
empty. The block cipher is any permutation of the 16-byte blocks together with
its inverse, used in CBC mode. -/
theorem Decrypt_Encrypt_zero_padded (A : AES) (d : Device) (p : List Nat)
    (hperm : IsBlockPerm (A.encrypt d.cipherParam.1) (A.decrypt d.cipherParam.1))
    (hiv : d.cipherParam.2.length = 16) (hivb : isBytes d.cipherParam.2)
    (hp : isBytes p) :
    ∃ c r, d.Encrypt A p = some c ∧ d.Decrypt A c = some r ∧
      r.length % 16 = 0 ∧ p.length ≤ r.length ∧ r.length < p.length + 16 ∧
      r.take p.length = p ∧ (∀ x ∈ r.drop p.length, x = 0) ∧ (p = [] → r = []) := by
  have hrt := blockCipher_roundtrip _ _ hperm d.cipherParam.2 p hiv hivb hp
  refine ⟨blockCipher ⟨false, A.encrypt d.cipherParam.1, d.cipherParam.2⟩ p,
    p ++ List.replicate ((16 - p.length % 16) % 16) 0, ?_, ?_, ?_, ?_, ?_, ?_, ?_, ?_⟩
  · simp [Device.Encrypt, NewCBCEncrypter, hiv]
  · simp [Device.Decrypt, NewCBCDecrypter, hiv, hrt]
  · rw [List.length_append, List.length_replicate]; omega
  · rw [List.length_append]; omega
  · rw [List.length_append, List.length_replicate]; omega
  · rw [List.take_left]
  · rw [List.drop_left]
    intro x hx
    exact List.eq_of_mem_replicate hx
  · intro h; subst h; rfl

/-- Witness of C1: the sample device (default key and IV) with a three-byte
input and the byte-shift permutation. -/
theorem Decrypt_Encrypt_zero_padded_witness :
    ∃ c r, sampleDevice.Encrypt shiftAES [0x74, 0x61, 0x6b] = some c ∧
      sampleDevice.Decrypt shiftAES c = some r ∧
      r.length % 16 = 0 ∧ [0x74, 0x61, 0x6b].length ≤ r.length ∧
      r.length < [0x74, 0x61, 0x6b].length + 16 ∧
      r.take [0x74, 0x61, 0x6b].length = [0x74, 0x61, 0x6b] ∧
      (∀ x ∈ r.drop [0x74, 0x61, 0x6b].length, x = 0) ∧
      ([0x74, 0x61, 0x6b] = [] → r = []) :=
  Decrypt_Encrypt_zero_padded shiftAES sampleDevice [0x74, 0x61, 0x6b]
    (shiftAES_perm _) rfl (by decide) (by decide)

/-! ## Lemmas on `Call` and `Cmd` -/

theorem cipherParam_counter (d : Device) (c : Nat) :
    ({ d with counter := c } : Device).cipherParam = d.cipherParam := rfl

/-- The packet `Call` and `Cmd` build once the counter is advanced. -/
theorem built_packet (A : AES) (d : Device) (cmd : Nat) (payload : List Nat)
    (mac : List Nat) (hmac : d.MACAddr = some mac) (hlen : mac.length = 6)
    (hiv : d.cipherParam.2.length = 16) :
    ∃ pkt, ({ d with counter := (d.counter + 1) % 65536 } : Device).buildCmdPacket A cmd payload
        = some pkt ∧
      le16 pkt 0x28 = (d.counter + 1) % 65536 ∧
      Uint16 pkt 0x28 = some ((d.counter + 1) % 65536) ∧
      (List.range 6).any (fun i => pkt.getD (0x2a + i) 0 != mac.getD (5 - i) 0) = false := by
  obtain ⟨enc, henc⟩ := Encrypt_some A { d with counter := (d.counter + 1) % 65536 } payload hiv
  have hm : ({ d with counter := (d.counter + 1) % 65536 } : Device).MACAddr
      = some [mac.getD 0 0, mac.getD 1 0, mac.getD 2 0, mac.getD 3 0, mac.getD 4 0,
          mac.getD 5 0] := by
    rw [← length_eq_six mac hlen]; exact hmac
  have hc : (d.counter + 1) % 65536 < 65536 := Nat.mod_lt _ (by decide)
  rw [buildCmdPacket_eq A _ cmd payload _ _ _ _ _ _ hm enc henc]
  refine ⟨_, rfl, ?_, ?_, ?_⟩
  · simp [PutUint16, wireHeader, List.replicate, le16]
    omega
  · simp only [Uint16, PutUint16, wireHeader, List.replicate, List.cons_append, List.nil_append, List.set_cons_succ,
      List.set_cons_zero, List.drop_succ_cons, List.drop_zero, List.length_cons,
      Nat.reduceAdd]
    rw [if_pos (by omega), Nat.lor_comm,
      shl_or_eq _ _ (Nat.mod_lt _ (by decide)) (Nat.mod_lt _ (by decide))]
    congr 1
    omega
  · simp [PutUint16, wireHeader, List.replicate, List.range, List.range.loop]

/-- What `Call` does once the hardware address has six bytes and the IV is
usable, for every socket behaviour. -/
theorem Call_eq (A : AES) (t : Transport) (d : Device) (cmd : Nat) (payload : List Nat)
    (mac : List Nat) (hmac : d.MACAddr = some mac) (hlen : mac.length = 6)
    (hiv : d.cipherParam.2.length = 16) :
    ∃ pkt, ({ d with counter := (d.counter + 1) % 65536 } : Device).buildCmdPacket A cmd payload
        = some pkt ∧
      (d.Call A t cmd payload).dev = { d with counter := (d.counter + 1) % 65536 } ∧
      (d.Call A t cmd payload).built = some pkt ∧
      (d.Call A t cmd payload).out =
        (match t.listenUDP with
        | some e => .returned [] (some (.net e))
        | none =>
          match t.setDeadline with
          | some e => .returned [] (some (.net e))
          | none =>
            match t.writeTo with
            | some e => .returned [] (some (.net e))
            | none =>
              match t.readFromUDP with
              | .error e => .returned [] (some (.net e))
              | .ok resp =>
                if packetChecksumOK resp = false then
                  .returned resp (some .invalidChecksum)
                else
                  match Uint16 resp 0x28 with
                  | none => .panic
                  | some c =>
                    if (d.counter + 1) % 65536 ≠ c then
                      .returned resp (some .invalidPacketCounter)
                    else
                      .returned resp (t.close.map Error.net)) := by
  obtain ⟨ty, m, ua, la, tmo, id, c, k, iv, blk⟩ := d
  simp only at hmac
  subst hmac
  obtain ⟨pkt, hb, _, _, hany⟩ := built_packet A _ cmd payload mac rfl hlen hiv
  refine ⟨pkt, hb, ?_⟩
  simp only at hb
  unfold Device.Call
  rw [if_neg (by simp [hlen])]
  simp only [hb, Option.getD_some, hany]
  rcases t.listenUDP with _ | e1
  · rcases t.setDeadline with _ | e2
    · rcases t.writeTo with _ | e3
      · rcases t.readFromUDP with e4 | resp
        · simp [deferredClose]
        · by_cases hok : packetChecksumOK resp = true
          · rcases hu : Uint16 resp 0x28 with _ | c'
            · simp [hok, hu]
            · by_cases hc : (c + 1) % 65536 = c'
              · simp [hok, hu, hc, deferredClose]
              · simp [hok, hu, hc, deferredClose]
          · simp [hok, deferredClose]
      · simp [deferredClose]
    · simp [deferredClose]
  · simp

/-- What `Cmd` does once the hardware address has six bytes and the IV is
usable, for every socket behaviour. -/
theorem Cmd_eq (A : AES) (t : Transport) (d : Device) (cmd : Nat) (payload : List Nat)
    (mac : List Nat) (hmac : d.MACAddr = some mac) (hlen : mac.length = 6)
    (hiv : d.cipherParam.2.length = 16) :
    ∃ pkt, ({ d with counter := (d.counter + 1) % 65536 } : Device).buildCmdPacket A cmd payload
        = some pkt ∧
      (d.Cmd A t cmd payload).dev = { d with counter := (d.counter + 1) % 65536 } ∧
      (d.Cmd A t cmd payload).built = some pkt := by
  obtain ⟨ty, m, ua, la, tmo, id, c, k, iv, blk⟩ := d
  simp only at hmac
  subst hmac
  obtain ⟨pkt, hb, _, _, _⟩ := built_packet A _ cmd payload mac rfl hlen hiv
  refine ⟨pkt, hb, ?_⟩
  simp only at hb
  unfold Device.Cmd
  rw [if_neg (by simp [hlen])]
  simp only [hb]
  rcases t.listenUDP with _ | e1
  · rcases t.setDeadline with _ | e2 <;> simp
  · simp

/-! ## Theorems on `Call` and `Cmd` -/

/-- C7 (the code departs from it): the sample device receives a response with a
valid checksum and the right counter whose bytes `0x2a..0x2f` are not its
hardware address in reversed order, and `Call` returns that response with no
error. -/
theorem Call_accepts_foreign_hardware_address :
    packetChecksumOK foreignResponse = true ∧
    Uint16 foreignResponse 0x28 = some ((sampleDevice.counter + 1) % 65536) ∧
    sampleDevice.MACAddr = some [0x34, 0xea, 0x34, 0x01, 0x02, 0x03] ∧
    (foreignResponse.drop 0x2a).take 6 ≠ [0x03, 0x02, 0x01, 0x34, 0xea, 0x34] ∧
    (sampleDevice.Call shiftAES (okTransport foreignResponse) 0x6a [1, 2, 3]).out =
      .returned foreignResponse none := by
  decide

/-- C8: when the socket delivers a response, a response that fails
`packetChecksumOK` is returned with the checksum error, whatever its counter
field; a response of at least `0x2a` bytes that passes is answered with the
invalid-packet-counter error exactly when the little-endian 16-bit value at
`0x28..0x29` differs from the counter used for the request, `(c + 1) mod 65536`. -/
theorem Call_counter_check (A : AES) (t : Transport) (d : Device) (cmd : Nat)
    (payload : List Nat) (mac : List Nat) (hmac : d.MACAddr = some mac) (hlen : mac.length = 6)
    (hiv : d.cipherParam.2.length = 16)
    (h1 : t.listenUDP = none) (h2 : t.setDeadline = none) (h3 : t.writeTo = none)
    (resp : List Nat) (h4 : t.readFromUDP = .ok resp) (hresp : isBytes resp) :
    (packetChecksumOK resp = false →
      (d.Call A t cmd payload).out = .returned resp (some .invalidChecksum)) ∧
    (packetChecksumOK resp = true → 0x2a ≤ resp.length →
      ((∃ r, (d.Call A t cmd payload).out = .returned r (some .invalidPacketCounter)) ↔
        le16 resp 0x28 ≠ (d.counter + 1) % 65536)) := by
  obtain ⟨pkt, _, _, _, hout⟩ := Call_eq A t d cmd payload mac hmac hlen hiv
  rw [h1, h2, h3, h4] at hout
  simp only at hout
  refine ⟨?_, ?_⟩
  · intro hbad
    rw [hout, if_pos hbad]
  · intro hok hl
    have hu : Uint16 resp 0x28 = some (le16 resp 0x28) := by
      obtain ⟨b0, b1, rest, hd⟩ : ∃ b0 b1 rest, resp.drop 0x28 = b0 :: b1 :: rest := by
        have : 2 ≤ (resp.drop 0x28).length := by rw [List.length_drop]; omega
        match hdr : resp.drop 0x28, this with
        | b0 :: b1 :: rest, _ => exact ⟨b0, b1, rest, rfl⟩
      have g0 : resp.getD 0x28 0 = b0 := by
        have := congrArg (fun l => l.getD 0 0) hd
        simpa using this
      have g1 : resp.getD 0x29 0 = b1 := by
        have := congrArg (fun l => l.getD 1 0) hd
        simpa using this
      have hb0 := isBytes_getD resp hresp 0x28
      have hb1 := isBytes_getD resp hresp 0x29
      unfold Uint16 le16
      rw [if_pos (by omega), hd]
      simp only [Nat.reduceAdd]
      rw [g0, g1, Nat.lor_comm, shl_or_eq _ _ (g0 ▸ hb0) (g1 ▸ hb1)]
    rw [hout, if_neg (by simp [hok]), hu]
    simp only
    by_cases hc : (d.counter + 1) % 65536 = le16 resp 0x28
    · rw [if_neg (by simpa using hc)]
      constructor
      · rintro ⟨r, hr⟩
        cases hcl : t.close <;> simp [hcl] at hr
      · intro hne; exact absurd hc.symm hne
    · rw [if_pos hc]
      constructor
      · intro _ h; exact hc h.symm
      · intro _; exact ⟨resp, rfl⟩

/-- Witness of C8: the sample device rejects a response with a wrong stored
checksum as such, and a well-formed response that carries the previous counter
value with the invalid-packet-counter error. -/
theorem Call_counter_check_witness :
    (sampleDevice.Call shiftAES (okTransport corruptResponse) 0x6a [1, 2, 3]).out =
      .returned corruptResponse (some .invalidChecksum) ∧
    ∃ r, (sampleDevice.Call shiftAES (okTransport staleResponse) 0x6a [1, 2, 3]).out =
      .returned r (some .invalidPacketCounter) :=
  ⟨(Call_counter_check shiftAES (okTransport corruptResponse) sampleDevice 0x6a [1, 2, 3]
      [0x34, 0xea, 0x34, 0x01, 0x02, 0x03] rfl rfl rfl rfl rfl rfl corruptResponse rfl
      (by decide)).1 (by decide),
   ((Call_counter_check shiftAES (okTransport staleResponse) sampleDevice 0x6a [1, 2, 3]
      [0x34, 0xea, 0x34, 0x01, 0x02, 0x03] rfl rfl rfl rfl rfl rfl staleResponse rfl
      (by decide)).2 (by decide) (by decide)).2 (by decide)⟩

/-- C9: for a device with a 6-byte hardware address and counter `c`, one `Call`
and one `Cmd` each leave the device with counter `(c + 1) mod 65536` and every
other field as it was, for every socket behaviour, and the packet they build
carries `(c + 1) mod 65536` in its counter field at `0x28..0x29`. -/
theorem Call_Cmd_counter_once (A : AES) (t : Transport) (d : Device) (cmd : Nat)
    (payload : List Nat) (mac : List Nat) (hmac : d.MACAddr = some mac) (hlen : mac.length = 6)
    (hiv : d.cipherParam.2.length = 16) :
    (d.Call A t cmd payload).dev.counter = (d.counter + 1) % 65536 ∧
    (d.Cmd A t cmd payload).dev.counter = (d.counter + 1) % 65536 ∧
    (d.Call A t cmd payload).dev = { d with counter := (d.counter + 1) % 65536 } ∧
    (d.Cmd A t cmd payload).dev = { d with counter := (d.counter + 1) % 65536 } ∧
    ∃ pkt, (d.Call A t cmd payload).built = some pkt ∧
      (d.Cmd A t cmd payload).built = some pkt ∧
      le16 pkt 0x28 = (d.counter + 1) % 65536 ∧
      Uint16 pkt 0x28 = some ((d.counter + 1) % 65536) := by
  obtain ⟨pkt, hb, h1, h2, _⟩ := built_packet A d cmd payload mac hmac hlen hiv
  obtain ⟨pkt1, hb1, c1, c2, _⟩ := Call_eq A t d cmd payload mac hmac hlen hiv
  obtain ⟨pkt2, hb2, m1, m2⟩ := Cmd_eq A t d cmd payload mac hmac hlen hiv
  have e1 : pkt1 = pkt := Option.some.inj (hb1.symm.trans hb)
  have e2 : pkt2 = pkt := Option.some.inj (hb2.symm.trans hb)
  rw [e1] at c2
  rw [e2] at m2
  exact ⟨by rw [c1], by rw [m1], c1, m1, pkt, c2, m2, h1, h2⟩

/-- Witness of C9: the sample device on a socket that cannot be bound. -/
theorem Call_Cmd_counter_once_witness :
    (sampleDevice.Call shiftAES failingTransport 0x6a [1, 2, 3]).dev.counter
      = (sampleDevice.counter + 1) % 65536 ∧
    (sampleDevice.Cmd shiftAES failingTransport 0x6a [1, 2, 3]).dev.counter
      = (sampleDevice.counter + 1) % 65536 ∧
    (sampleDevice.Call shiftAES failingTransport 0x6a [1, 2, 3]).dev
      = { sampleDevice with counter := (sampleDevice.counter + 1) % 65536 } ∧
    (sampleDevice.Cmd shiftAES failingTransport 0x6a [1, 2, 3]).dev
      = { sampleDevice with counter := (sampleDevice.counter + 1) % 65536 } ∧
    ∃ pkt, (sampleDevice.Call shiftAES failingTransport 0x6a [1, 2, 3]).built = some pkt ∧
      (sampleDevice.Cmd shiftAES failingTransport 0x6a [1, 2, 3]).built = some pkt ∧
      le16 pkt 0x28 = (sampleDevice.counter + 1) % 65536 ∧
      Uint16 pkt 0x28 = some ((sampleDevice.counter + 1) % 65536) :=
  Call_Cmd_counter_once shiftAES failingTransport sampleDevice 0x6a [1, 2, 3]
    [0x34, 0xea, 0x34, 0x01, 0x02, 0x03] rfl rfl rfl

/-- C10: for a device whose hardware address is unset or does not have exactly
six bytes, `Call` and `Cmd` return the invalid-MAC-address error, build no
packet, hand nothing to the socket and leave the device as it was. -/
theorem Call_Cmd_invalid_hardware_address (A : AES) (t : Transport) (d : Device) (cmd : Nat)
    (payload : List Nat) (h : ∀ mac, d.MACAddr = some mac → mac.length ≠ 6) :
    d.Call A t cmd payload = ⟨d, none, none, .returned [] (some .invalidMACAddress)⟩ ∧
    d.Cmd A t cmd payload = ⟨d, none, none, .returned [] (some .invalidMACAddress)⟩ := by
  have hc : d.MACAddr = none ∨ (d.MACAddr.getD []).length ≠ 6 := by
    rcases hm : d.MACAddr with _ | mac
    · exact Or.inl rfl
    · exact Or.inr (by simpa using h mac hm)
  exact ⟨by unfold Device.Call; rw [if_pos hc], by unfold Device.Cmd; rw [if_pos hc]⟩

/-- Witness of C10: a device without hardware address (for `Call`) and a
device with a five-byte one (for `Cmd`). -/
theorem Call_Cmd_invalid_hardware_address_witness :
    blankDevice.Call shiftAES (okTransport foreignResponse) 0x6a [1, 2, 3]
      = ⟨blankDevice, none, none, .returned [] (some .invalidMACAddress)⟩ ∧
    shortMACDevice.Cmd shiftAES (okTransport foreignResponse) 0x6a [1, 2, 3]
      = ⟨shortMACDevice, none, none, .returned [] (some .invalidMACAddress)⟩ :=
  ⟨(Call_Cmd_invalid_hardware_address shiftAES (okTransport foreignResponse) blankDevice 0x6a
      [1, 2, 3] (by intro mac hm; cases hm)).1,
   (Call_Cmd_invalid_hardware_address shiftAES (okTransport foreignResponse) shortMACDevice 0x6a
      [1, 2, 3] (by intro mac hm; cases hm; decide)).2⟩

/-- The invalid-device-MAC error of `Call` cannot occur: the loop compares the
packet that was sent, not the response, with the hardware address. -/
theorem Call_invalidDeviceMAC_unreachable (A : AES) (t : Transport) (d : Device) (cmd : Nat)
    (payload : List Nat) (mac : List Nat) (hmac : d.MACAddr = some mac) (hlen : mac.length = 6)
    (hiv : d.cipherParam.2.length = 16) (r : List Nat) :
    (d.Call A t cmd payload).out ≠ .returned r (some .invalidDeviceMAC) := by
  obtain ⟨pkt, _, _, _, hout⟩ := Call_eq A t d cmd payload mac hmac hlen hiv
  rw [hout]
  rcases t.listenUDP with _ | e1
  · rcases t.setDeadline with _ | e2
    · rcases t.writeTo with _ | e3
      · rcases t.readFromUDP with e4 | resp
        · simp
        · simp only
          split
          · simp
          · split
            · simp
            · split
              · simp
              · cases t.close <;> simp
      · simp
    · simp
  · simp

/-! ## Discovery replies -/

theorem getElem?_eq_some_getD (r : List Nat) (i : Nat) (h : i < r.length) :
    r[i]? = some (r.getD i 0) := by
  simp [List.getD_eq_getElem?_getD, List.getElem?_eq_getElem h]

theorem To4_getD_ne (ip : List Nat) (a b c d : Nat) :
    (To4 ip).getD [] ≠ [a, b, c, d] ↔ ¬ To4 ip = some [a, b, c, d] := by
  rcases h : To4 ip with _ | x <;> simp

/-- C11: a discovery datagram `r` of at least `0x40` bytes received from `raddr`
appends exactly one device when `packetChecksumOK r`, `r[0x26] = 0x07` and the
IPv4 address `(r[0x39], r[0x38], r[0x37], r[0x36])` is the IPv4 form of
`raddr`'s IP, and leaves the list as it was otherwise. The appended device has
`Type = r[0x34] + 256 * r[0x35]`, `MACAddr[5-i] = r[0x3a+i]`, `UDPAddr = raddr`,
`LocalAddr` the address passed to the probe, and zero in every other field. -/
theorem discoverReply_spec (localaddr : NetUDPAddr) (devlist : List Device) (r : List Nat)
    (raddr : NetUDPAddr) (hlen : 0x40 ≤ r.length) (hr : isBytes r) :
    discoverReply localaddr devlist r raddr =
      some (if packetChecksumOK r = true ∧ r.getD 0x26 0 = 0x07 ∧
              To4 raddr.IP = some [r.getD 0x39 0, r.getD 0x38 0, r.getD 0x37 0, r.getD 0x36 0]
        then
          devlist ++ [{ zeroDevice with
            DevType := r.getD 0x34 0 + 256 * r.getD 0x35 0
            MACAddr := some [r.getD 0x3f 0, r.getD 0x3e 0, r.getD 0x3d 0, r.getD 0x3c 0,
              r.getD 0x3b 0, r.getD 0x3a 0]
            UDPAddr := raddr
            LocalAddr := localaddr }]
        else devlist) := by
  have h26 := getElem?_eq_some_getD r 0x26 (by omega)
  have h34 := getElem?_eq_some_getD r 0x34 (by omega)
  have h35 := getElem?_eq_some_getD r 0x35 (by omega)
  have h36 := getElem?_eq_some_getD r 0x36 (by omega)
  have h37 := getElem?_eq_some_getD r 0x37 (by omega)
  have h38 := getElem?_eq_some_getD r 0x38 (by omega)
  have h39 := getElem?_eq_some_getD r 0x39 (by omega)
  have h3a := getElem?_eq_some_getD r 0x3a (by omega)
  have h3b := getElem?_eq_some_getD r 0x3b (by omega)
  have h3c := getElem?_eq_some_getD r 0x3c (by omega)
  have h3d := getElem?_eq_some_getD r 0x3d (by omega)
  have h3e := getElem?_eq_some_getD r 0x3e (by omega)
  have h3f := getElem?_eq_some_getD r 0x3f (by omega)
  have hty := shl_or_eq _ _ (isBytes_getD r hr 0x34) (isBytes_getD r hr 0x35)
  unfold discoverReply
  rw [if_neg (by omega)]
  by_cases hok : packetChecksumOK r = true
  · rw [if_neg (by simp [hok])]
    simp only [h26, h34, h35, h36, h37, h38, h39]
    by_cases hcmd : r.getD 0x26 0 = 0x07
    · rw [if_neg (not_not.mpr hcmd)]
      by_cases hip : To4 raddr.IP
          = some [r.getD 0x39 0, r.getD 0x38 0, r.getD 0x37 0, r.getD 0x36 0]
      · rw [if_neg (by rw [To4_getD_ne]; exact not_not.mpr hip), if_pos ⟨hok, hcmd, hip⟩]
        simp only [List.range, List.range.loop, List.foldlM, Nat.reduceAdd, Nat.reduceSub,
          h3a, h3b, h3c, h3d, h3e, h3f, Option.map_eq_map, Option.map_some',
          Option.bind_eq_bind, Option.some_bind, Option.pure_def, List.replicate,
          List.set_cons_succ, List.set_cons_zero, hty]
      · rw [if_pos (by rw [To4_getD_ne]; exact hip), if_neg (fun h => hip h.2.2)]
    · rw [if_pos hcmd, if_neg (fun h => hcmd h.2.1)]
  · rw [if_pos (by simp [hok]), if_neg (fun h => hok h.1)]

set_option maxRecDepth 8192 in
/-- Witness of C11: a well-formed reply from `10.0.0.1`, on an empty list. -/
theorem discoverReply_spec_witness :
    discoverReply probeAddr [] helloReply helloSource =
      some (if packetChecksumOK helloReply = true ∧ helloReply.getD 0x26 0 = 0x07 ∧
              To4 helloSource.IP = some [helloReply.getD 0x39 0, helloReply.getD 0x38 0,
                helloReply.getD 0x37 0, helloReply.getD 0x36 0]
        then
          [] ++ [{ zeroDevice with
            DevType := helloReply.getD 0x34 0 + 256 * helloReply.getD 0x35 0
            MACAddr := some [helloReply.getD 0x3f 0, helloReply.getD 0x3e 0,
              helloReply.getD 0x3d 0, helloReply.getD 0x3c 0, helloReply.getD 0x3b 0,
              helloReply.getD 0x3a 0]
            UDPAddr := helloSource
            LocalAddr := probeAddr }]
        else []) :=
  discoverReply_spec probeAddr [] helloReply helloSource (by decide) (by decide)

/-! ## Authorization payload and key handling -/

theorem length_copy (dst src : List Nat) : (copy dst src).length = dst.length := by
  unfold copy
  rw [List.length_append, List.length_take, List.length_drop]
  omega

theorem length_copyAt (dst : List Nat) (lo hi : Nat) (src : List Nat) (h1 : lo ≤ hi)
    (h2 : hi ≤ dst.length) : (copyAt dst lo hi src).length = dst.length := by
  unfold copyAt
  simp only [List.length_append, length_copy, List.length_take, List.length_drop]
  omega

theorem authPayloadSize_bounds (localName : List Nat) :
    0x50 ≤ authPayloadSize localName ∧ authPayloadSize localName ≤ 0x80 := by
  unfold authPayloadSize
  simp only
  split_ifs <;> omega

/-- C12: the payload `Auth` builds has the size
`clamp(0x30 + 16 * floor(max(len(localName) - 1, 0) / 16), 0x50, 0x80)`, which
lies within `[0x50, 0x80]` and is a multiple of 16. -/
theorem authPayload_size (localID localName : List Nat) :
    (authPayload localID localName).length = authPayloadSize localName ∧
    (authPayloadSize localName : Int) =
      max 0x50 (min 0x80 (0x30 + 16 * (max ((localName.length : Int) - 1) 0 / 16))) ∧
    0x50 ≤ authPayloadSize localName ∧ authPayloadSize localName ≤ 0x80 ∧
    authPayloadSize localName % 16 = 0 := by
  have hb := authPayloadSize_bounds localName
  refine ⟨?_, ?_, hb.1, hb.2, ?_⟩
  · have h1 : (copyAt (List.replicate (authPayloadSize localName) 0) 0x04 0x13 localID).length
        = authPayloadSize localName := by
      rw [length_copyAt _ _ _ _ (by decide) (by rw [List.length_replicate]; omega),
        List.length_replicate]
    unfold authPayload
    simp only
    rw [length_copyAt _ _ _ _ (by rw [List.length_set, h1]; omega) (le_refl _),
      List.length_set, h1]
  · unfold authPayloadSize
    simp only
    split_ifs <;> omega
  · unfold authPayloadSize
    simp only
    split_ifs <;> omega

set_option maxRecDepth 8192 in
/-- C13 (the code departs from it): for a 15-byte identity and a 33-byte name
the payload has `0x50` bytes, so it holds only the first 32 bytes of the name
from `0x30` on; position `0x30 + 32` is outside the payload and the last byte
of the name is dropped. -/
theorem authPayload_truncates_name :
    sampleLocalID.length = 15 ∧ longName.length = 33 ∧
    (authPayload sampleLocalID longName).length = 0x50 ∧
    (authPayload sampleLocalID longName).drop 0x30 = longName.take 32 ∧
    (authPayload sampleLocalID longName)[0x30 + 32]? = none ∧
    longName[32]? = some 97 := by
  decide

theorem drop_copyAt_tail (p src : List Nat) (n : Nat) (hn : n ≤ p.length) :
    (copyAt p n p.length src).drop n = copy (p.drop n) src := by
  unfold copyAt
  have hl : (List.take n p).length = n := by rw [List.length_take]; omega
  rw [List.append_assoc, List.drop_append_eq_append_drop, hl,
    List.drop_of_length_le (by rw [hl]), List.nil_append, Nat.sub_self, List.drop_zero,
    List.drop_of_length_le (le_refl _), List.append_nil, List.take_length]

/-- The name region of the payload of `Auth`: the bytes from `0x30` on are the
first `size - 0x30` bytes of the name, followed by zeros. -/
theorem authPayload_name_region (localID localName : List Nat) :
    (authPayload localID localName).drop 0x30 =
      localName.take (authPayloadSize localName - 0x30) ++
        List.replicate (authPayloadSize localName - 0x30 - localName.length) 0 := by
  have hb := authPayloadSize_bounds localName
  have h1 : (copyAt (List.replicate (authPayloadSize localName) 0) 0x04 0x13 localID).length
      = authPayloadSize localName := by
    rw [length_copyAt _ _ _ _ (by decide) (by rw [List.length_replicate]; omega),
      List.length_replicate]
  have h2 : (copyAt (List.replicate (authPayloadSize localName) 0) 0x04 0x13 localID).drop 0x30
      = List.replicate (authPayloadSize localName - 0x30) 0 := by
    unfold copyAt
    have hl : (List.take 0x04 (List.replicate (authPayloadSize localName) 0) ++
        copy (List.drop 0x04 (List.take 0x13 (List.replicate (authPayloadSize localName) 0)))
          localID).length = 0x13 := by
      simp only [List.length_append, length_copy, List.length_take, List.length_drop,
        List.length_replicate]
      omega
    rw [List.drop_append_eq_append_drop, hl, List.drop_of_length_le (by rw [hl]; decide),
      List.nil_append, List.drop_drop, List.drop_replicate]
  unfold authPayload
  simp only
  rw [drop_copyAt_tail _ _ _ (by rw [List.length_set, h1]; omega),
    List.drop_set_of_lt _ _ (by decide), h2]
  unfold copy
  rw [List.length_replicate, List.drop_replicate]

/-- C16: after `SetAESKey(k)`, `GetAESKey()` is `k` when `k` has 16 bytes and
the default key otherwise, so it always has 16 bytes; it is the key the cipher
uses; and setting it on any other device gives that device the same key. -/
theorem SetAESKey_GetAESKey (d : Device) (k : List Nat) :
    (k.length = 16 → (d.SetAESKey k).GetAESKey = k) ∧
    (k.length ≠ 16 → (d.SetAESKey k).GetAESKey = broadlink_aeskey) ∧
    (d.SetAESKey k).GetAESKey.length = 16 ∧
    (d.SetAESKey k).cipherParam.1 = (d.SetAESKey k).GetAESKey ∧
    ∀ d2 : Device, (d2.SetAESKey (d.SetAESKey k).GetAESKey).GetAESKey
      = (d.SetAESKey k).GetAESKey := by
  have key : ∀ (e : Device) (k : List Nat),
      (e.SetAESKey k).GetAESKey = (if k.length = 16 then k else broadlink_aeskey) ∧
      (e.SetAESKey k).cipherParam.1 = (e.SetAESKey k).GetAESKey := by
    intro e k
    unfold Device.SetAESKey Device.GetAESKey Device.cipherParam
    by_cases h1 : k.length = 16
    · by_cases h2 : k = broadlink_aeskey
      · simp [h1, h2]
      · simp [h1, h2]
    · simp [h1]
  have hdl : broadlink_aeskey.length = 16 := rfl
  have hlen : (d.SetAESKey k).GetAESKey.length = 16 := by
    rw [(key d k).1]; split <;> simp_all
  refine ⟨?_, ?_, hlen, (key d k).2, ?_⟩
  · intro h; rw [(key d k).1, if_pos h]
  · intro h; rw [(key d k).1, if_neg h]
  · intro d2
    rw [(key d2 _).1, if_pos hlen]

/-! ## Payload extraction -/

theorem getPayload_blank_iff (A : AES) (e : Device) (packet : List Nat) :
    (∃ x, e.getPayload A packet = some (x, some .blankResponse)) ↔ packet.length ≤ 0x38 := by
  unfold Device.getPayload
  by_cases h : packet.length ≤ 0x38
  · simp [h]
  · simp only [h, if_false, iff_false, not_exists]
    intro x
    rcases e.Decrypt A (packet.drop 0x38) with _ | y <;> simp

theorem getPayload_long (A : AES) (e : Device) (packet : List Nat) (h : 0x38 < packet.length) :
    e.getPayload A packet = (e.Decrypt A (packet.drop 0x38)).map (fun x => (x, none)) := by
  unfold Device.getPayload
  rw [if_neg (by omega)]
  rcases e.Decrypt A (packet.drop 0x38) with _ | y <;> rfl

theorem blockCipher_nil (m : BlockMode) : blockCipher m [] = [] := by
  simp [blockCipher]

/-- C15: `getPayload` returns the blank-response error exactly for packets of
at most `0x38` bytes and otherwise `Decrypt` of the bytes from `0x38` on; on a
packet built by `buildCmdPacket` from payload `p` it returns blank response
exactly when `p` is empty and otherwise `p` followed by zeros up to the next
multiple of 16. -/
theorem getPayload_spec (A : AES) (d : Device) (cmd : Nat) (p : List Nat)
    (mac : List Nat) (hmac : d.MACAddr = some mac) (hlen : mac.length = 6)
    (hperm : IsBlockPerm (A.encrypt d.cipherParam.1) (A.decrypt d.cipherParam.1))
    (hiv : d.cipherParam.2.length = 16) (hivb : isBytes d.cipherParam.2)
    (hp : isBytes p) :
    (∀ (e : Device) (packet : List Nat),
      ((∃ x, e.getPayload A packet = some (x, some .blankResponse)) ↔ packet.length ≤ 0x38) ∧
      (0x38 < packet.length →
        e.getPayload A packet = (e.Decrypt A (packet.drop 0x38)).map (fun x => (x, none)))) ∧
    ∃ pkt, d.buildCmdPacket A cmd p = some pkt ∧
      ((∃ x, d.getPayload A pkt = some (x, some .blankResponse)) ↔ p = []) ∧
      (p ≠ [] →
        d.getPayload A pkt = some (p ++ List.replicate ((16 - p.length % 16) % 16) 0, none)) := by
  refine ⟨fun e packet => ⟨getPayload_blank_iff A e packet, getPayload_long A e packet⟩, ?_⟩
  have hrt := blockCipher_roundtrip _ _ hperm d.cipherParam.2 p hiv hivb hp
  have henc : d.Encrypt A p
      = some (blockCipher ⟨false, A.encrypt d.cipherParam.1, d.cipherParam.2⟩ p) := by
    simp [Device.Encrypt, NewCBCEncrypter, hiv]
  have hm := hmac
  rw [length_eq_six mac hlen] at hm
  rw [buildCmdPacket_eq A d cmd p _ _ _ _ _ _ hm _ henc]
  refine ⟨_, rfl, ?_⟩
  generalize hE : blockCipher ⟨false, A.encrypt d.cipherParam.1, d.cipherParam.2⟩ p = enc
    at hrt
  have hl : (PutUint16 (wireHeader 0 0 cmd d.counter (mac.getD 0 0) (mac.getD 1 0)
      (mac.getD 2 0) (mac.getD 3 0) (mac.getD 4 0) (mac.getD 5 0) d.ID (checksum p) ++ enc) 0x20
      (checksum (wireHeader 0 0 cmd d.counter (mac.getD 0 0) (mac.getD 1 0)
      (mac.getD 2 0) (mac.getD 3 0) (mac.getD 4 0) (mac.getD 5 0) d.ID (checksum p) ++ enc))).length
      = 0x38 + enc.length := by
    simp only [PutUint16, List.length_set, List.length_append, wireHeader, List.length_cons,
      List.length_nil, List.length_replicate]
  have hd : (PutUint16 (wireHeader 0 0 cmd d.counter (mac.getD 0 0) (mac.getD 1 0)
      (mac.getD 2 0) (mac.getD 3 0) (mac.getD 4 0) (mac.getD 5 0) d.ID (checksum p) ++ enc) 0x20
      (checksum (wireHeader 0 0 cmd d.counter (mac.getD 0 0) (mac.getD 1 0)
      (mac.getD 2 0) (mac.getD 3 0) (mac.getD 4 0) (mac.getD 5 0) d.ID (checksum p) ++ enc))).drop 0x38
      = enc := by
    simp [PutUint16, wireHeader, List.replicate]
  have hne : p ≠ [] → enc ≠ [] := by
    intro hpn he
    rw [he, blockCipher_nil] at hrt
    have := congrArg List.length hrt
    rw [List.length_append, List.length_nil] at this
    exact hpn (List.length_eq_zero.mp (by omega))
  refine ⟨?_, ?_⟩
  · rw [getPayload_blank_iff, hl]
    constructor
    · intro h
      by_contra hpn
      have := hne hpn
      have : 0 < enc.length := List.length_pos.mpr this
      omega
    · intro h
      subst h
      rw [blockCipher_nil] at hE
      subst hE
      simp
  · intro hpn
    have : 0 < enc.length := List.length_pos.mpr (hne hpn)
    rw [getPayload_long A d _ (by rw [hl]; omega), hd]
    simp [Device.Decrypt, NewCBCDecrypter, hiv, hrt]

/-- Witness of C15: the sample device and a three-byte payload. -/
theorem getPayload_spec_witness :
    (∀ (e : Device) (packet : List Nat),
      ((∃ x, e.getPayload shiftAES packet = some (x, some .blankResponse))
        ↔ packet.length ≤ 0x38) ∧
      (0x38 < packet.length →
        e.getPayload shiftAES packet
          = (e.Decrypt shiftAES (packet.drop 0x38)).map (fun x => (x, none)))) ∧
    ∃ pkt, sampleDevice.buildCmdPacket shiftAES 0x6a [1, 2, 3] = some pkt ∧
      ((∃ x, sampleDevice.getPayload shiftAES pkt = some (x, some .blankResponse))
        ↔ [1, 2, 3] = []) ∧
      ([1, 2, 3] ≠ [] →
        sampleDevice.getPayload shiftAES pkt
          = some ([1, 2, 3] ++ List.replicate ((16 - [1, 2, 3].length % 16) % 16) 0, none)) :=
  getPayload_spec shiftAES sampleDevice 0x6a [1, 2, 3] [0x34, 0xea, 0x34, 0x01, 0x02, 0x03]
    rfl rfl (shiftAES_perm _) rfl (by decide) (by decide)

/-! ## Reading multi-byte fields; authorization -/

theorem getD_take (l : List Nat) (n i : Nat) (h : i < n) : (l.take n).getD i 0 = l.getD i 0 := by
  simp [List.getD_eq_getElem?_getD, List.getElem?_take, h]

theorem drop_eq_getD_cons (b : List Nat) (off : Nat) (h : off < b.length) :
    b.drop off = b.getD off 0 :: b.drop (off + 1) := by
  rw [List.drop_eq_getElem_cons h]
  simp [List.getD_eq_getElem?_getD, List.getElem?_eq_getElem h]

theorem Uint16_eq_le16 (b : List Nat) (off : Nat) (h : off + 2 ≤ b.length) (hb : isBytes b) :
    Uint16 b off = some (le16 b off) := by
  unfold Uint16 le16
  rw [if_pos (by omega), drop_eq_getD_cons b off (by omega),
    drop_eq_getD_cons b (off + 1) (by omega)]
  simp only
  rw [Nat.lor_comm, shl_or_eq _ _ (isBytes_getD b hb _) (isBytes_getD b hb _)]

theorem resultCode_eq_le16 (res : List Nat) (hb : isBytes res) :
    resultCode res = le16 res 0x22 := by
  unfold resultCode le16
  rw [Nat.lor_comm, shl_or_eq _ _ (isBytes_getD res hb _) (isBytes_getD res hb _)]

theorem or4_eq (b0 b1 b2 b3 : Nat) (h0 : b0 < 256) (h1 : b1 < 256) (h2 : b2 < 256)
    (h3 : b3 < 256) :
    b0 ||| ((b1 <<< 8) % 4294967296) ||| ((b2 <<< 16) % 4294967296)
      ||| ((b3 <<< 24) % 4294967296)
      = b0 + 256 * b1 + 65536 * b2 + 16777216 * b3 := by
  have e1 := Nat.mul_add_lt_is_or (i := 8) (b := b0) (by simpa using h0) b1
  have e2 := Nat.mul_add_lt_is_or (i := 16) (b := 2 ^ 8 * b1 + b0)
    (by simp only [Nat.reducePow]; omega) b2
  have e3 := Nat.mul_add_lt_is_or (i := 24) (b := 2 ^ 16 * b2 + (2 ^ 8 * b1 + b0))
    (by simp only [Nat.reducePow]; omega) b3
  simp only [Nat.shiftLeft_eq, Nat.reducePow] at e1 e2 e3 ⊢
  rw [Nat.mod_eq_of_lt (by omega), Nat.mod_eq_of_lt (by omega), Nat.mod_eq_of_lt (by omega)]
  rw [Nat.mul_comm b1, Nat.mul_comm b2, Nat.mul_comm b3]
  rw [Nat.lor_comm b0, ← e1, Nat.lor_comm _ (65536 * b2), ← e2, Nat.lor_comm _ (16777216 * b3),
    ← e3]
  omega

theorem Uint32_eq_le32 (b : List Nat) (off : Nat) (h : off + 4 ≤ b.length) (hb : isBytes b) :
    Uint32 b off = some (le32 b off) := by
  unfold Uint32 le32
  rw [if_pos (by omega), drop_eq_getD_cons b off (by omega),
    drop_eq_getD_cons b (off + 1) (by omega), drop_eq_getD_cons b (off + 1 + 1) (by omega),
    drop_eq_getD_cons b (off + 1 + 1 + 1) (by omega)]
  simp only
  rw [or4_eq _ _ _ _ (isBytes_getD b hb _) (isBytes_getD b hb _) (isBytes_getD b hb _)
    (isBytes_getD b hb _)]

/-- C14: when `Call` accepts a response whose decrypted payload `data` has at
least `0x14` bytes, `Auth` returns no error and leaves the device with `ID` the
little-endian 32-bit value of `data[0..3]`, with `GetAESKey()` equal to
`data[0x04..0x13]` and with that key as the key of the cipher (the IV stays),
also when that key is the default key. -/
theorem Auth_sets_identity_and_key (A : AES) (t : Transport) (d : Device)
    (localID localName res data : List Nat) (hid : localID.length = 15)
    (hcall : (d.Call A t 0x65 (authPayload localID localName)).out = .returned res none)
    (hpay : (d.Call A t 0x65 (authPayload localID localName)).dev.getPayload A res
      = some (data, none))
    (hlen : 0x14 ≤ data.length) (hdata : isBytes data) :
    (d.Auth A t localID localName).out = .returned none ∧
    (d.Auth A t localID localName).dev.ID = le32 data 0 ∧
    (d.Auth A t localID localName).dev.GetAESKey = (data.take 0x14).drop 0x04 ∧
    (d.Auth A t localID localName).dev.cipherParam.1 = (data.take 0x14).drop 0x04 ∧
    (d.Auth A t localID localName).dev.cipherParam.2 = d.cipherParam.2 := by
  have hu : Uint32 (data.take 0x04) 0 = some (le32 data 0) := by
    rw [Uint32_eq_le32 _ 0 (by rw [List.length_take]; omega) (isBytes_take _ _ hdata)]
    unfold le32
    simp only [Nat.zero_add]
    rw [getD_take _ _ _ (by decide), getD_take _ _ _ (by decide), getD_take _ _ _ (by decide),
      getD_take _ _ _ (by decide)]
  have hk : ((data.take 0x14).drop 0x04).length = 16 := by
    rw [List.length_drop, List.length_take]; omega
  have hA : d.Auth A t localID localName =
      ⟨{ (d.Call A t 0x65 (authPayload localID localName)).dev.SetAESKey
            ((data.take 0x14).drop 0x04) with ID := le32 data 0 }, .returned none⟩ := by
    unfold Device.Auth
    rw [if_neg (by omega)]
    simp only [hcall, hpay, hu]
    rw [if_neg (by omega)]
  have hcp : (d.Call A t 0x65 (authPayload localID localName)).dev.cipherParam.2
      = d.cipherParam.2 := by
    unfold Device.Call
    split
    · rfl
    · simp only
      repeat' split
      all_goals rfl
  rw [hA]
  refine ⟨rfl, rfl, ?_, ?_, ?_⟩
  · show (Device.SetAESKey _ _).GetAESKey = _
    unfold Device.SetAESKey Device.GetAESKey
    by_cases h2 : (data.take 0x14).drop 0x04 = broadlink_aeskey
    · simp [hk, h2]
    · simp [hk, h2]
  · show (Device.SetAESKey _ _).cipherParam.1 = _
    unfold Device.SetAESKey Device.cipherParam
    by_cases h2 : (data.take 0x14).drop 0x04 = broadlink_aeskey
    · simp [hk, h2]
    · simp [hk, h2]
  · rw [← hcp]
    unfold Device.SetAESKey Device.cipherParam
    by_cases h2 : (data.take 0x14).drop 0x04 = broadlink_aeskey
    · simp [hk, h2]
    · simp [hk, h2]

set_option maxRecDepth 8192 in
/-- Witness of C14: the sample device receives an authorization response that
carries the identity `0x01000007` and a 16-byte key. -/
theorem Auth_sets_identity_and_key_witness :
    (sampleDevice.Auth shiftAES (okTransport authResponse) sampleLocalID shortName).out
      = .returned none ∧
    (sampleDevice.Auth shiftAES (okTransport authResponse) sampleLocalID shortName).dev.ID
      = le32 authData 0 ∧
    (sampleDevice.Auth shiftAES (okTransport authResponse) sampleLocalID shortName).dev.GetAESKey
      = (authData.take 0x14).drop 0x04 ∧
    (sampleDevice.Auth shiftAES (okTransport authResponse) sampleLocalID
      shortName).dev.cipherParam.1 = (authData.take 0x14).drop 0x04 ∧
    (sampleDevice.Auth shiftAES (okTransport authResponse) sampleLocalID
      shortName).dev.cipherParam.2 = sampleDevice.cipherParam.2 :=
  Auth_sets_identity_and_key shiftAES (okTransport authResponse) sampleDevice sampleLocalID
    shortName authResponse authData (by decide) (by decide) (by decide) (by decide) (by decide)

/-! ## Remote-control operations -/

/-- C18: for a response accepted by `Call`, the little-endian 16-bit result
code at `0x22..0x23` decides: `0xFFF6` gives `ErrNotCaptured`, no code and remote
type zero; any other non-zero value gives the generic read failure, which is
not `ErrNotCaptured`, and no code; the value zero goes on to decoding the
payload. -/
theorem ReadCaptured_result_code (A : AES) (t : Transport) (d : Device) (res : List Nat)
    (hcall : (d.Call A t 0x6a ((List.replicate 0x10 0).set 0 0x04)).out = .returned res none)
    (hres : isBytes res) :
    (le16 res 0x22 = 0xFFF6 →
      (d.ReadCapturedRemoteControlCode A t).out = some (0, [], some .notCaptured)) ∧
    (le16 res 0x22 ≠ 0 → le16 res 0x22 ≠ 0xFFF6 →
      (d.ReadCapturedRemoteControlCode A t).out = some (0, [], some .failedReading)) ∧
    (le16 res 0x22 = 0 →
      (d.ReadCapturedRemoteControlCode A t).out =
        (d.Call A t 0x6a ((List.replicate 0x10 0).set 0 0x04)).dev.decodeCaptured A res) := by
  have hrc := resultCode_eq_le16 res hres
  unfold Device.ReadCapturedRemoteControlCode
  simp only [hcall, hrc]
  refine ⟨?_, ?_, ?_⟩
  · intro h
    rw [if_pos (by omega), if_pos h]
  · intro h0 h1
    rw [if_pos h0, if_neg h1]
  · intro h
    rw [if_neg (by omega)]

set_option maxRecDepth 8192 in
/-- Witness of C18: responses with result codes `0xfff6`, `0x0001` and `0`. -/
theorem ReadCaptured_result_code_witness :
    (sampleDevice.ReadCapturedRemoteControlCode shiftAES (okTransport notCapturedResponse)).out
      = some (0, [], some .notCaptured) ∧
    (sampleDevice.ReadCapturedRemoteControlCode shiftAES (okTransport failedResponse)).out
      = some (0, [], some .failedReading) ∧
    (sampleDevice.ReadCapturedRemoteControlCode shiftAES (okTransport capturedResponse)).out
      = (sampleDevice.Call shiftAES (okTransport capturedResponse) 0x6a
          ((List.replicate 0x10 0).set 0 0x04)).dev.decodeCaptured shiftAES capturedResponse :=
  ⟨(ReadCaptured_result_code shiftAES (okTransport notCapturedResponse) sampleDevice
      notCapturedResponse (by decide) (by decide)).1 (by decide),
   (ReadCaptured_result_code shiftAES (okTransport failedResponse) sampleDevice
      failedResponse (by decide) (by decide)).2.1 (by decide) (by decide),
   (ReadCaptured_result_code shiftAES (okTransport capturedResponse) sampleDevice
      capturedResponse (by decide) (by decide)).2.2 (by decide)⟩

/-- C20: for a response accepted by `Call` with result code zero and more than
`0x38` bytes, with `data` its decrypted payload, `ReadCapturedRemoteControlCode`
returns (it does not panic), and returns no error exactly when the
little-endian 16-bit value of `data[0..1]` is `0x04` and
`len(data) >= 8 + sz` for `sz` the little-endian 16-bit value of `data[6..7]`;
then `rtype = data[4]` and `code = data[8 .. 8+sz)`. -/
theorem ReadCaptured_decode (A : AES) (t : Transport) (d : Device) (res data : List Nat)
    (hcall : (d.Call A t 0x6a ((List.replicate 0x10 0).set 0 0x04)).out = .returned res none)
    (hres : isBytes res) (hcode : le16 res 0x22 = 0) (hlen : 0x38 < res.length)
    (hdec : (d.Call A t 0x6a ((List.replicate 0x10 0).set 0 0x04)).dev.Decrypt A (res.drop 0x38)
      = some data)
    (hdata : isBytes data) :
    ∃ rtype code err,
      (d.ReadCapturedRemoteControlCode A t).out = some (rtype, code, err) ∧
      (err = none ↔ le16 data 0 = 0x04 ∧ 8 + le16 data 6 ≤ data.length) ∧
      (err = none → rtype = Int.ofNat (data.getD 4 0) ∧
        code = (data.drop 8).take (le16 data 6)) := by
  have hrc := resultCode_eq_le16 res hres
  have hR : (d.ReadCapturedRemoteControlCode A t).out =
      (d.Call A t 0x6a ((List.replicate 0x10 0).set 0 0x04)).dev.decodeCaptured A res := by
    unfold Device.ReadCapturedRemoteControlCode
    simp only [hcall, hrc]
    rw [if_neg (by omega)]
  rw [hR]
  unfold Device.decodeCaptured
  rw [getPayload_long A _ res hlen, hdec]
  simp only [Option.map_some']
  by_cases h8 : data.length < 8
  · rw [if_pos h8]
    refine ⟨_, _, _, rfl, ?_, ?_⟩
    · simp only [reduceCtorEq, false_iff, not_and]
      intro _; omega
    · intro h; cases h
  · rw [if_neg h8]
    have hc : Uint16 (data.take 4) 0 = some (le16 data 0) := by
      rw [Uint16_eq_le16 _ 0 (by rw [List.length_take]; omega) (isBytes_take _ _ hdata)]
      unfold le16
      simp only [Nat.zero_add]
      rw [getD_take _ _ _ (by decide), getD_take _ _ _ (by decide)]
    have hs : Uint16 (data.take 8) 6 = some (le16 data 6) := by
      rw [Uint16_eq_le16 _ 6 (by rw [List.length_take]; omega) (isBytes_take _ _ hdata)]
      unfold le16
      rw [getD_take _ _ _ (by decide), getD_take _ _ _ (by decide)]
    have h4 : (data[4]? : Option Nat) = some (data.getD 4 0) :=
      getElem?_eq_some_getD data 4 (by omega)
    simp only [hc, hs, h4]
    by_cases hcmd : le16 data 0 = 0x04
    · rw [if_neg (not_not.mpr hcmd)]
      by_cases hsz : data.length < 8 + le16 data 6
      · rw [if_pos hsz]
        refine ⟨_, _, _, rfl, ?_, ?_⟩
        · simp only [reduceCtorEq, false_iff, not_and]
          intro _; omega
        · intro h; cases h
      · rw [if_neg hsz]
        refine ⟨_, _, _, rfl, ?_, ?_⟩
        · simp only [true_iff]
          exact ⟨hcmd, by omega⟩
        · intro _
          refine ⟨rfl, ?_⟩
          rw [List.drop_take]
          congr 1
          omega
    · rw [if_pos hcmd]
      refine ⟨_, _, _, rfl, ?_, ?_⟩
      · simp only [reduceCtorEq, false_iff, not_and]
        intro h; exact absurd h hcmd
      · intro h; cases h

set_option maxRecDepth 8192 in
/-- Witness of C20: a response whose payload holds a captured code of three
bytes followed by padding. -/
theorem ReadCaptured_decode_witness :
    ∃ rtype code err,
      (sampleDevice.ReadCapturedRemoteControlCode shiftAES (okTransport capturedResponse)).out
        = some (rtype, code, err) ∧
      (err = none ↔ le16 capturedData 0 = 0x04 ∧ 8 + le16 capturedData 6 ≤ capturedData.length) ∧
      (err = none → rtype = Int.ofNat (capturedData.getD 4 0) ∧
        code = (capturedData.drop 8).take (le16 capturedData 6)) :=
  ReadCaptured_decode shiftAES (okTransport capturedResponse) sampleDevice capturedResponse
    capturedData (by decide) (by decide) (by decide) (by decide) (by decide) (by decide)


/-- For every non-positive `count` above the smallest `int`,
`SendRemoteControlCode` returns the invalid-count error, builds nothing and
leaves the device as it was. -/
theorem SendRemoteControlCode_nonpositive (A : AES) (t : Transport) (d : Device) (rtype : Int)
    (code : List Nat) (count : Int) (h0 : count ≤ 0) (hmin : -9223372036854775808 < count) :
    d.SendRemoteControlCode A t rtype code count
      = ⟨d, none, none, .returned (some .invalidCount)⟩ := by
  unfold Device.SendRemoteControlCode
  simp only
  rw [if_pos (by unfold wrapInt; omega)]

set_option maxRecDepth 8192 in
/-- C17 (the code departs from it): with `count` the smallest `int`, which is
not positive, `count--` wraps around to the largest `int`, the test `count < 0`
does not fire and the call goes on: a payload with repeat byte `0xff` is passed
to `Call`, the request counter is advanced and no error is returned. -/
theorem SendRemoteControlCode_min_count_sends :
    (-9223372036854775808 : Int) ≤ 0 ∧
    (sampleDevice.SendRemoteControlCode shiftAES (okTransport capturedResponse) 0x26 [9, 8, 7]
      (-9223372036854775808)).out = .returned none ∧
    (sampleDevice.SendRemoteControlCode shiftAES (okTransport capturedResponse) 0x26 [9, 8, 7]
      (-9223372036854775808)).payload = some [2, 0, 0, 0, 0x26, 0xff, 3, 0, 9, 8, 7] ∧
    (sampleDevice.SendRemoteControlCode shiftAES (okTransport capturedResponse) 0x26 [9, 8, 7]
      (-9223372036854775808)).dev.counter = sampleDevice.counter + 1 := by
  decide

theorem copyAt_tail (code : List Nat) (pre : List Nat) (hpre : pre.length = 8) :
    copyAt (pre ++ List.replicate code.length 0) 8 (pre ++ List.replicate code.length 0).length
      code = pre ++ code := by
  unfold copyAt copy
  rw [List.take_length, List.drop_length, List.append_nil, ← hpre, List.take_left,
    List.drop_left, List.length_replicate, List.take_length, List.drop_eq_nil_of_le (by simp),
    List.append_nil]

/-- The payload `SendRemoteControlCode` passes to `Call` for a positive repeat
count, as the code builds it: `0x02`, three zero bytes, `byte(rtype)`,
`byte(count - 1)`, `uint16(len(code))` in little-endian order, then the code. The
conversions keep the low 8 and 16 bits. -/
theorem SendRemoteControlCode_payload (A : AES) (t : Transport) (d : Device) (rtype : Int)
    (code : List Nat) (count : Int) (hpos : 0 < count) (hmax : count < 9223372036854775808) :
    (d.SendRemoteControlCode A t rtype code count).payload =
      some ([0x02, 0, 0, 0, (rtype % 256).toNat, ((count - 1) % 256).toNat,
        code.length % 65536 % 256, code.length % 65536 / 256 % 256] ++ code) ∧
    ([0x02, 0, 0, 0, (rtype % 256).toNat, ((count - 1) % 256).toNat,
        code.length % 65536 % 256, code.length % 65536 / 256 % 256] ++ code).length
      = 8 + code.length := by
  refine ⟨?_, by simp; omega⟩
  have hw : wrapInt (count - 1) = count - 1 := by unfold wrapInt; omega
  unfold Device.SendRemoteControlCode
  simp only [hw]
  rw [if_neg (by omega)]
  have hp : copyAt (PutUint16 ((((List.replicate (0x08 + code.length) 0).set 0 0x02).set 4
        (byteOfInt rtype)).set 5 (byteOfInt (count - 1))) 6 (code.length % 65536)) 8
      (PutUint16 ((((List.replicate (0x08 + code.length) 0).set 0 0x02).set 4
        (byteOfInt rtype)).set 5 (byteOfInt (count - 1))) 6 (code.length % 65536)).length code
      = [0x02, 0, 0, 0, (rtype % 256).toNat, ((count - 1) % 256).toNat,
        code.length % 65536 % 256, code.length % 65536 / 256 % 256] ++ code := by
    have hq : PutUint16 ((((List.replicate (0x08 + code.length) 0).set 0 0x02).set 4
        (byteOfInt rtype)).set 5 (byteOfInt (count - 1))) 6 (code.length % 65536)
        = [0x02, 0, 0, 0, (rtype % 256).toNat, ((count - 1) % 256).toNat,
          code.length % 65536 % 256, code.length % 65536 / 256 % 256]
          ++ List.replicate code.length 0 := by
      rw [List.replicate_add]
      simp [PutUint16, List.replicate, byteOfInt, Nat.shiftRight_eq_div_pow]
    rw [hq]
    exact copyAt_tail code _ rfl
  rw [hp]
  split
  · rfl
  · rfl
  · split <;> rfl

/-- An instance of the payload lemma: a repeat count of 2 and a code of three
bytes. -/
theorem SendRemoteControlCode_payload_witness :
    (sampleDevice.SendRemoteControlCode shiftAES failingTransport 0x26 [9, 8, 7] 2).payload =
      some ([0x02, 0, 0, 0, ((0x26 : Int) % 256).toNat, (((2 : Int) - 1) % 256).toNat,
        [9, 8, 7].length % 65536 % 256, [9, 8, 7].length % 65536 / 256 % 256] ++ [9, 8, 7]) ∧
    ([0x02, 0, 0, 0, ((0x26 : Int) % 256).toNat, (((2 : Int) - 1) % 256).toNat,
        [9, 8, 7].length % 65536 % 256, [9, 8, 7].length % 65536 / 256 % 256]
        ++ [9, 8, 7]).length = 8 + [9, 8, 7].length :=
  SendRemoteControlCode_payload shiftAES failingTransport sampleDevice 0x26 [9, 8, 7] 2
    (by decide) (by decide)

/-- Within the range of the wire fields (remote type below 256, repeat count
from 1 to 256, code shorter than 65536 bytes) the payload holds the remote
type, `count - 1` and `len(code)` themselves. -/
theorem SendRemoteControlCode_payload_in_range (A : AES) (t : Transport) (d : Device)
    (rtype : Nat) (code : List Nat) (count : Nat) (hr : rtype < 256) (hpos : 0 < count)
    (hmax : count ≤ 256) (hlen : code.length < 65536) :
    (d.SendRemoteControlCode A t (rtype : Int) code (count : Int)).payload =
      some ([0x02, 0, 0, 0, rtype, count - 1, code.length % 256, code.length / 256 % 256]
        ++ code) := by
  rw [(SendRemoteControlCode_payload A t d rtype code count (by omega) (by omega)).1]
  have h1 : ((rtype : Int) % 256).toNat = rtype := by omega
  have h2 : (((count : Int) - 1) % 256).toNat = count - 1 := by omega
  have h3 : code.length % 65536 = code.length := Nat.mod_eq_of_lt hlen
  rw [h1, h2, h3]

set_option maxRecDepth 8192 in
/-- C19 (the code departs from it): with the positive repeat count 257, byte 5
of the payload passed to `Call` is `0`, not `count - 1 = 256`; the payload is
the one built for `count = 1`, it is sent and no error is returned. -/
theorem SendRemoteControlCode_count_257_sent_as_once :
    (0 : Int) < 257 ∧ (257 : Int) - 1 ≠ 0 ∧
    (sampleDevice.SendRemoteControlCode shiftAES (okTransport capturedResponse) 0x26 [9, 8, 7]
      257).payload = some [2, 0, 0, 0, 0x26, 0, 3, 0, 9, 8, 7] ∧
    (sampleDevice.SendRemoteControlCode shiftAES (okTransport capturedResponse) 0x26 [9, 8, 7]
      257).out = .returned none ∧
    (sampleDevice.SendRemoteControlCode shiftAES (okTransport capturedResponse) 0x26 [9, 8, 7]
      257).payload =
      (sampleDevice.SendRemoteControlCode shiftAES (okTransport capturedResponse) 0x26 [9, 8, 7]
        1).payload := by
  decide

/-! ## Reads past the end of a received packet -/

/-- A packet that passes `packetChecksumOK` has at least `0x22` bytes. -/
theorem packetChecksumOK_length (p : List Nat) (h : packetChecksumOK p = true) :
    0x22 ≤ p.length := by
  by_contra hl
  have : p.length < 0x22 := by omega
  simp [packetChecksumOK, this] at h

/-- Every datagram of at most `0x26` bytes that passes `packetChecksumOK` makes
the reply processing panic at `r[0x26]`. -/
theorem discoverReply_short_panics (localaddr : NetUDPAddr) (devlist : List Device)
    (r : List Nat) (raddr : NetUDPAddr) (hok : packetChecksumOK r = true)
    (hlen : r.length ≤ 0x26) :
    discoverReply localaddr devlist r raddr = none := by
  have hl := packetChecksumOK_length r hok
  unfold discoverReply
  rw [if_neg (by omega), if_neg (by simp [hok]), List.getElem?_eq_none (by omega)]

/-- When the reply processing does not panic, it leaves the list as it was or
appends one device. -/
theorem discoverReply_discards_or_appends (localaddr : NetUDPAddr) (devlist : List Device)
    (r : List Nat) (raddr : NetUDPAddr) (l : List Device)
    (h : discoverReply localaddr devlist r raddr = some l) :
    l = devlist ∨ ∃ dev, l = devlist ++ [dev] := by
  simp only [discoverReply] at h
  repeat' split at h
  all_goals first
    | exact Or.inl (Option.some.inj h).symm
    | exact Or.inr ⟨_, (Option.some.inj h).symm⟩
    | cases h

/-- The 16-bit read panics when fewer than two bytes remain from `off`. -/
theorem Uint16_eq_none (b : List Nat) (off : Nat) (h : b.length < off + 2) :
    Uint16 b off = none := by
  unfold Uint16
  split
  · have hd : (b.drop off).length < 2 := by rw [List.length_drop]; omega
    match hb : b.drop off, hd with
    | [], _ => rfl
    | [_], _ => rfl
  · rfl

/-- The 16-bit read succeeds when two bytes remain from `off`. -/
theorem Uint16_isSome (b : List Nat) (off : Nat) (h : off + 2 ≤ b.length) :
    ∃ v, Uint16 b off = some v := by
  unfold Uint16
  rw [if_pos (by omega), drop_eq_getD_cons b off (by omega),
    drop_eq_getD_cons b (off + 1) (by omega)]
  exact ⟨_, rfl⟩

/-- With the socket delivering a response, `Call` panics exactly when the
response passes `packetChecksumOK` and has fewer than `0x2a` bytes. -/
theorem Call_panic_iff (A : AES) (t : Transport) (d : Device) (cmd : Nat)
    (payload : List Nat) (mac : List Nat) (hmac : d.MACAddr = some mac) (hlen : mac.length = 6)
    (hiv : d.cipherParam.2.length = 16)
    (h1 : t.listenUDP = none) (h2 : t.setDeadline = none) (h3 : t.writeTo = none)
    (resp : List Nat) (h4 : t.readFromUDP = .ok resp) :
    (d.Call A t cmd payload).out = .panic ↔
      packetChecksumOK resp = true ∧ resp.length < 0x2a := by
  obtain ⟨pkt, _, _, _, hout⟩ := Call_eq A t d cmd payload mac hmac hlen hiv
  rw [h1, h2, h3, h4] at hout
  simp only at hout
  rw [hout]
  by_cases hok : packetChecksumOK resp = true
  · rw [if_neg (by simp [hok])]
    by_cases hl : resp.length < 0x2a
    · rw [Uint16_eq_none resp 0x28 (by omega)]
      simp [hok, hl]
    · obtain ⟨v, hv⟩ := Uint16_isSome resp 0x28 (by omega)
      rw [hv]
      simp only [hok, hl, and_false, iff_false]
      split <;> simp
  · rw [if_pos (by simpa using hok)]
    simp [hok]

/-- For a response accepted by `Call` of at most `0x38` bytes `Auth` returns the
blank-response error. -/
theorem Auth_blank_response (A : AES) (t : Transport) (d : Device)
    (localID localName res : List Nat) (hid : localID.length = 15)
    (hcall : (d.Call A t 0x65 (authPayload localID localName)).out = .returned res none)
    (hlen : res.length ≤ 0x38) :
    d.Auth A t localID localName
      = ⟨(d.Call A t 0x65 (authPayload localID localName)).dev,
          .returned (some .blankResponse)⟩ := by
  unfold Device.Auth
  rw [if_neg (by omega)]
  simp only [hcall, Device.getPayload, hlen, if_true]

/-- For a response accepted by `Call` whose decrypted payload has fewer than
`0x14` bytes `Auth` panics at `data[0x04:0x14]`. -/
theorem Auth_short_payload_panics (A : AES) (t : Transport) (d : Device)
    (localID localName res data : List Nat) (hid : localID.length = 15)
    (hcall : (d.Call A t 0x65 (authPayload localID localName)).out = .returned res none)
    (hpay : (d.Call A t 0x65 (authPayload localID localName)).dev.getPayload A res
      = some (data, none))
    (hlen : data.length < 0x14) :
    (d.Auth A t localID localName).out = .panic := by
  unfold Device.Auth
  rw [if_neg (by omega)]
  simp only [hcall, hpay]
  rw [if_pos hlen]

set_option maxRecDepth 8192 in
/-- C21 (the code departs from it): a received datagram of `0x22` bytes with a
valid checksum passes `packetChecksumOK`, and the read of `r[0x26]` that follows
is outside the datagram: the reply processing panics instead of discarding the
datagram or appending a device. -/
theorem discoverReply_reads_past_short_datagram :
    shortDatagram.length = 0x22 ∧ packetChecksumOK shortDatagram = true ∧
    discoverReply probeAddr [] shortDatagram helloSource = none := by
  decide

set_option maxRecDepth 8192 in
/-- C22 (the code departs from it): the sample device, whose hardware address
has six bytes, receives a response of `0x22` bytes with a valid checksum; the
counter read `result[0x28:]` is outside the response and `Call` panics instead
of returning the response or an error. -/
theorem Call_reads_past_short_response :
    sampleDevice.MACAddr = some [0x34, 0xea, 0x34, 0x01, 0x02, 0x03] ∧
    shortDatagram.length = 0x22 ∧ packetChecksumOK shortDatagram = true ∧
    (sampleDevice.Call shiftAES (okTransport shortDatagram) 0x6a [1, 2, 3]).out = .panic := by
  decide

set_option maxRecDepth 8192 in
/-- C23 (the code departs from it): a response of `0x48` bytes, whose encrypted
payload is one block, is accepted by `Call` and decrypts to 16 bytes; the key
read `data[0x04:0x14]` is outside those 16 bytes and `Auth` panics instead of
returning. -/
theorem Auth_panics_on_one_block_payload :
    shortAuthResponse.length = 0x48 ∧
    (sampleDevice.Call shiftAES (okTransport shortAuthResponse) 0x65
      (authPayload sampleLocalID shortName)).out = .returned shortAuthResponse none ∧
    (sampleDevice.Call shiftAES (okTransport shortAuthResponse) 0x65
      (authPayload sampleLocalID shortName)).dev.getPayload shiftAES shortAuthResponse
      = some (authData.take 16, none) ∧
    (sampleDevice.Auth shiftAES (okTransport shortAuthResponse) sampleLocalID shortName).out
      = .panic := by
  decide

end Broadlink
